import Mathlib

/-!
Verification of the tsukimi patch script (src/apps/steam/patch_tsukimi.py).

Documents are modelled as `List Char`.  Every regular expression used by the
source is backtracking-free on its inputs (each `\s*` / `[^;]*` / `[^)]*` is a
maximal run followed by a literal character that cannot belong to the run), so
each regex is embedded as a deterministic character-level matcher, and
`re.search` / `re.subn` leftmost semantics are embedded as a scan over all
positions (or over all line starts for `(?m)^` patterns; in Python's multiline
mode `^` matches at the start of the string and right after each newline
character).
-/

set_option maxRecDepth 40000

namespace Tsukimi

abbrev Str := List Char

/-- Python whitespace (`str.isspace`, which is also the character set of the
regex `\s` in unicode mode): the common characters plus the unicode spaces. -/
def pySpace (c : Char) : Bool :=
  c == ' ' || c == '\t' || c == '\n' || c == '\r' || c == '\x0b' || c == '\x0c' ||
  c == '\x1c' || c == '\x1d' || c == '\x1e' || c == '\x1f' || c == '\x85' ||
  c == '\xa0' ||
  decide (c.toNat = 0x1680) ||
  decide (0x2000 ≤ c.toNat ∧ c.toNat ≤ 0x200a) ||
  decide (c.toNat = 0x2028) || decide (c.toNat = 0x2029) ||
  decide (c.toNat = 0x202f) || decide (c.toNat = 0x205f) ||
  decide (c.toNat = 0x3000)

/-- The character class `[ \t]`. -/
def hSpace (c : Char) : Bool := c == ' ' || c == '\t'

/-- Line-break characters recognised by Python `str.splitlines`. -/
def pyLineBreak (c : Char) : Bool :=
  c == '\n' || c == '\r' || c == '\x0b' || c == '\x0c' ||
  c == '\x1c' || c == '\x1d' || c == '\x1e' || c == '\x85' ||
  decide (c.toNat = 0x2028) || decide (c.toNat = 0x2029)

/-- Python `str.splitlines`: every break terminates a line, `\r\n` counts as a
single break, a trailing segment without a break forms a final line. -/
def pySplitlines : Str → List Str
  | [] => []
  | '\r' :: '\n' :: r2 => [] :: pySplitlines r2
  | c :: rest =>
    if pyLineBreak c then [] :: pySplitlines rest
    else
      match pySplitlines rest with
      | [] => [[c]]
      | l :: ls => (c :: l) :: ls

/-- Python `str.rstrip()` (the whitespace-trimming form). -/
def pyRstrip (s : Str) : Str := (s.reverse.dropWhile pySpace).reverse

/-- Python `str.strip()`. -/
def pyStrip (s : Str) : Str := pyRstrip (s.dropWhile pySpace)

/-- First index at which `pat` occurs in `s` (Python `str.find` / `in`). -/
def findSub (pat : Str) : Str → Option Nat
  | [] => if pat = [] then some 0 else none
  | c :: r => if pat.isPrefixOf (c :: r) then some 0 else (findSub pat r).map (· + 1)

def containsSub (pat s : Str) : Bool := (findSub pat s).isSome

/-- Model of `_detect_newline`: `"\r\n" if "\r\n" in text else "\n"`. -/
def detect_newline (t : Str) : Str :=
  if containsSub ('\r' :: '\n' :: []) t then ['\r', '\n'] else ['\n']

/-- Python `list.insert` (used for `lines.insert(var_line_idx, comment_line)`). -/
def insertAt : Nat → α → List α → List α
  | 0, a, l => a :: l
  | _ + 1, a, [] => [a]
  | n + 1, a, c :: r => c :: insertAt n a r

/-- Generic leftmost search: try the matcher at every position. -/
def scanAll (M : Str → Option β) (pre : Str) : Str → Option (Str × β)
  | [] => none
  | c :: r =>
    match M (c :: r) with
    | some b => some (pre, b)
    | none => scanAll M (pre ++ [c]) r

/-- Generic leftmost search restricted to `(?m)^` positions (the start of the
searched string, and every position right after a newline character). -/
def scanLS (M : Str → Option β) (pre : Str) (atLS : Bool) : Str → Option (Str × β)
  | [] => none
  | c :: r =>
    if atLS then
      match M (c :: r) with
      | some b => some (pre, b)
      | none => scanLS M (pre ++ [c]) (c == '\n') r
    else scanLS M (pre ++ [c]) (c == '\n') r

/-! The `:root` block locator: `(?s)(:root\s*\x7b)(.*?)(\n\x7d)`. -/

/-- The two-character close delimiter (newline then closing brace) of a
`:root` block. -/
def nlBrace : Str := ['\n', '\x7d']

/-- Match `:root` then `\s*` then an opening brace at the head of `s`; returns
the matched text and the remainder.  The whitespace run is maximal and the
next character must be the opening brace. -/
def matchRootOpen (s : Str) : Option (Str × Str) :=
  if ((":root").data).isPrefixOf s then
    let t := s.drop 5
    let ws := t.takeWhile pySpace
    match t.drop ws.length with
    | '\x7b' :: r => some (((":root").data) ++ ws ++ ['\x7b'], r)
    | _ => none
  else none

/-- Combined matcher at one position: header, then the shortest body ended by
the newline-brace pair (the non-greedy middle group). -/
def rootAt (s : Str) : Option (Str × Str × Str) :=
  match matchRootOpen s with
  | none => none
  | some (op, rem) =>
    match findSub nlBrace rem with
    | none => none
    | some k => some (op, rem.take k, rem.drop k)

/-- Embedding of the `:root`-block search, yielding the decomposition
`text = pre ++ opn ++ body ++ rest` with `rest` starting with the
newline-brace close pair. -/
def rootSearch (t : Str) : Option (Str × Str × Str × Str) :=
  match scanAll rootAt [] t with
  | none => none
  | some (pre, opn, body, rest) => some (pre, opn, body, rest)

/-! Model of `_replace_css_vars_in_root_block`. -/

/-- Match `^([ \t]*--VAR\s*:\s*)([^;]*)(;)` at the head of `s`; returns
`(group1, group2, rest)`. -/
def matchVarAt (var : Str) (s : Str) : Option (Str × Str × Str) :=
  let ind := s.takeWhile hSpace
  let t1 := s.drop ind.length
  if (('-' :: '-' :: var)).isPrefixOf t1 then
    let t2 := t1.drop (var.length + 2)
    let ws1 := t2.takeWhile pySpace
    match t2.drop ws1.length with
    | ':' :: t3 =>
      let ws2 := t3.takeWhile pySpace
      let t4 := t3.drop ws2.length
      let g2 := t4.takeWhile (fun c => c != ';')
      match t4.drop g2.length with
      | ';' :: t5 => some (ind ++ '-' :: '-' :: var ++ ws1 ++ ':' :: ws2, g2, t5)
      | _ => none
    | _ => none
  else none

/-- Embedding of `pattern.subn(r"\g<1>VALUE\g<3>", root_body, count=1)`. -/
def subnVar (var val : Str) (body : Str) : Str × Bool :=
  match scanLS (matchVarAt var) [] true body with
  | none => (body, false)
  | some (pre, g1, _g2, rest) => (pre ++ g1 ++ val ++ ';' :: rest, true)

/-- The `for var, value in replacements.items()` loop. -/
def replaceVarsBody (repl : List (Str × Str)) (body : Str) : Str × List Str :=
  repl.foldl
    (fun acc pv =>
      let r := subnVar pv.1 pv.2 acc.1
      if r.2 then (r.1, acc.2 ++ [pv.1]) else acc)
    (body, [])

/-- Model of `_replace_css_vars_in_root_block(text, replacements)`. -/
def replace_css_vars_in_root_block (t : Str) (repl : List (Str × Str)) :
    Str × List Str :=
  match rootSearch t with
  | none => (t, [])
  | some (pre, opn, body, rest) =>
    let r := replaceVarsBody repl body
    (pre ++ opn ++ r.1 ++ rest, r.2)

/-! Model of `_ensure_comment_before_var_in_root_block`. -/

/-- Match `^(?P<indent>[ \t]*)--VAR\s*:` at the head of `s`; returns the
indent group. -/
def matchVarHead (var : Str) (s : Str) : Option Str :=
  let ind := s.takeWhile hSpace
  let t1 := s.drop ind.length
  if (('-' :: '-' :: var)).isPrefixOf t1 then
    let t2 := t1.drop (var.length + 2)
    let ws1 := t2.takeWhile pySpace
    match t2.drop ws1.length with
    | ':' :: _ => some ind
    | _ => none
  else none

/-- First index of a line on which `var_re.match(line)` succeeds. -/
def firstVarLineIdx (var : Str) : List Str → Option Nat
  | [] => none
  | l :: ls =>
    if (matchVarHead var l).isSome then some 0
    else (firstVarLineIdx var ls).map (· + 1)

def TSUKIMI_COMMENT : Str := ("Tsukimi-inspired palette").data

/-- The loop `j = var_line_idx - 1; while j >= 0 and not lines[j].strip():
j -= 1`: nearest preceding line that is not blank. -/
def prevNonBlank (lines : List Str) : Nat → Option Str
  | 0 => none
  | j + 1 =>
    let l := lines.getD j []
    if l.all pySpace then prevNonBlank lines j else some l

/-- Model of `_ensure_comment_before_var_in_root_block(text, var, comment)`. -/
def ensure_comment_before_var_in_root_block (t : Str) (var comment : Str) :
    Str × Bool :=
  match rootSearch t with
  | none => (t, false)
  | some (pre, opn, body, rest) =>
    let nl := detect_newline t
    match scanLS (matchVarHead var) [] true body with
    | none => (t, false)
    | some (_, ind) =>
      let commentLine := ind ++ (("/* ").data) ++ comment ++ ((" */").data)
      let lines := pySplitlines body
      match firstVarLineIdx var lines with
      | none => (t, false)
      | some i =>
        let already := match prevNonBlank lines i with
                       | some lj => containsSub TSUKIMI_COMMENT lj
                       | none => false
        if already then (t, false)
        else
          let lines2 := insertAt i commentLine lines
          let body2 := (List.intercalate nl lines2) ++
            (if body.getLast? = some '\n' then nl else [])
          (pre ++ opn ++ body2 ++ rest, true)

/-! Selector blocks: `(?sm)^(\s*SEL\s*\x7b)(.*?)(^\s*\x7d\s*)`. -/

/-- Match `\s*SEL\s*` then an opening brace at the head of `s` (tried at line
starts only). -/
def matchSelOpen (sel : Str) (s : Str) : Option (Str × Str) :=
  let ws := s.takeWhile pySpace
  let t1 := s.drop ws.length
  if sel.isPrefixOf t1 then
    let t2 := t1.drop sel.length
    let ws2 := t2.takeWhile pySpace
    match t2.drop ws2.length with
    | '\x7b' :: r => some (ws ++ sel ++ ws2 ++ ['\x7b'], r)
    | _ => none
  else none

/-- Match the close group `^\s*\x7d\s*` at the head of `s` (line starts only). -/
def matchClose (s : Str) : Option (Str × Str) :=
  let ws := s.takeWhile pySpace
  match s.drop ws.length with
  | '\x7d' :: r =>
    let ws2 := r.takeWhile pySpace
    some (ws ++ '\x7d' :: ws2, r.drop ws2.length)
  | _ => none

/-- One position of the selector pattern: open at a line start, then the
shortest middle such that the close group matches at a later line start (a
position right after the opening brace is never a line start, since the
previous character is the brace itself). -/
def selAt (sel : Str) (s : Str) : Option (Str × Str × Str × Str) :=
  match matchSelOpen sel s with
  | none => none
  | some (hd, rem) =>
    match scanLS matchClose [] false rem with
    | none => none
    | some (body, cl, rest) => some (hd, body, cl, rest)

/-- Embedding of the selector-pattern search over the whole text:
`t = pre ++ hd ++ body ++ cl ++ rest`. -/
def selSearch (sel : Str) (t : Str) : Option (Str × Str × Str × Str × Str) :=
  match scanLS (selAt sel) [] true t with
  | none => none
  | some (pre, hd, body, cl, rest) => some (pre, hd, body, cl, rest)

/-! Model of `_ensure_webkit_body_bg_uses_clientbg`. -/

/-- Match `^(\s*background:\s*)rgb\([^)]*\)\s*;.*$` at the head of `s`;
returns the first group and the rest after the whole match. -/
def matchBgAt (s : Str) : Option (Str × Str) :=
  let ws := s.takeWhile pySpace
  let t1 := s.drop ws.length
  if (("background:").data).isPrefixOf t1 then
    let t2 := t1.drop 11
    let ws2 := t2.takeWhile pySpace
    let t3 := t2.drop ws2.length
    if (("rgb(").data).isPrefixOf t3 then
      let t4 := t3.drop 4
      let inner := t4.takeWhile (fun c => c != ')')
      match t4.drop inner.length with
      | ')' :: t5 =>
        let ws3 := t5.takeWhile pySpace
        match t5.drop ws3.length with
        | ';' :: t6 =>
          let tail := t6.takeWhile (fun c => c != '\n')
          some (ws ++ (("background:").data) ++ ws2, t6.drop tail.length)
        | _ => none
      | _ => none
    else none
  else none

/-- Model of `_ensure_webkit_body_bg_uses_clientbg(text)`. -/
def ensure_webkit_body_bg_uses_clientbg (t : Str) : Str × Bool :=
  match selSearch (("body").data) t with
  | none => (t, false)
  | some (pre, hd, body, cl, rest) =>
    match scanLS matchBgAt [] true body with
    | none => (t, false)
    | some (bpre, g1, brest) =>
      let newLine := g1 ++ (("rgb(var(--clientBG));").data)
      (pre ++ hd ++ (bpre ++ newLine ++ brest) ++ cl ++ rest, true)

/-! Model of `_ensure_selector_properties`. -/

/-- Match `^(\s*PROP\s*:)\s*[^;]*;.*$` at the head of `s`; returns the rest
after the whole match (the replacement overwrites the whole match). -/
def matchPropAt (prop : Str) (s : Str) : Option Str :=
  let ws := s.takeWhile pySpace
  let t1 := s.drop ws.length
  if prop.isPrefixOf t1 then
    let t2 := t1.drop prop.length
    let ws2 := t2.takeWhile pySpace
    match t2.drop ws2.length with
    | ':' :: t3 =>
      let ws3 := t3.takeWhile pySpace
      let t4 := t3.drop ws3.length
      let v := t4.takeWhile (fun c => c != ';')
      match t4.drop v.length with
      | ';' :: t5 =>
        let tail := t5.takeWhile (fun c => c != '\n')
        some (t5.drop tail.length)
      | _ => none
    | _ => none
  else none

/-- The canonical line built by the source: four spaces, the property, a colon
and a space, the value, a semicolon. -/
def desiredLine (prop value : Str) : Str :=
  (("    ").data) ++ prop ++ ((": ").data) ++ value ++ [';']

/-- One `for prop, value in properties.items()` step of
`_ensure_selector_properties`. -/
def propStep (nl : Str) (acc : Str × Bool) (pv : Str × Str) : Str × Bool :=
  let desired := desiredLine pv.1 pv.2
  match scanLS (matchPropAt pv.1) [] true acc.1 with
  | some (bpre, brest) => (bpre ++ desired ++ brest, true)
  | none =>
    let b1 := if acc.1.getLast? = some '\n' then acc.1 else acc.1 ++ nl
    (b1 ++ desired ++ nl, true)

/-- Model of `_ensure_selector_properties(text, selector, properties)`. -/
def ensure_selector_properties (t : Str) (sel : Str)
    (props : List (Str × Str)) : Str × Bool :=
  match selSearch sel t with
  | none => (t, false)
  | some (pre, hd, body, cl, rest) =>
    let nl := detect_newline t
    let r := props.foldl (propStep nl) (body, false)
    if r.2 then (pre ++ hd ++ r.1 ++ cl ++ rest, true) else (t, false)

/-! Models of `_tsukimi_theme_json_block` and
`_upsert_tsukimi_variation_in_theme_json`. -/

/-- The 24 canonical entries (quoted key, line tail), in the literal order of
the source. -/
def tsukimiEntries : List (Str × Str) := [
  ((("\x22--focus\x22").data), (("[\x22205,177,149\x22, \x22all\x22],").data)),
  ((("\x22--clientBG\x22").data), (("[\x2213,14,18\x22, \x22all\x22],").data)),
  ((("\x22--header_dark\x22").data), (("[\x2213,14,18\x22, \x22all\x22],").data)),
  ((("\x22--bgGameList\x22").data), (("[\x2210,11,15\x22, \x22all\x22],").data)),
  ((("\x22--white05onbgGameList\x22").data), (("[\x2215,16,21\x22, \x22all\x22],").data)),
  ((("\x22--frameBorder\x22").data), (("[\x2237,42,54\x22, \x22all\x22],").data)),
  ((("\x22--textentry\x22").data), (("[\x2213,14,18\x22, \x22all\x22],").data)),
  ((("\x22--online\x22").data), (("[\x22138,159,186\x22, \x22all\x22],").data)),
  ((("\x22--ingame\x22").data), (("[\x22138,154,128\x22, \x22all\x22],").data)),
  ((("\x22--offline\x22").data), (("[\x22184,179,170\x22, \x22all\x22],").data)),
  ((("\x22--golden\x22").data), (("[\x22229,213,184\x22, \x22all\x22],").data)),
  ((("\x22--white03\x22").data), (("[\x22240,235,229,0.03\x22, \x22all\x22],").data)),
  ((("\x22--white05\x22").data), (("[\x22240,235,229,0.05\x22, \x22all\x22],").data)),
  ((("\x22--white08\x22").data), (("[\x22240,235,229,0.08\x22, \x22all\x22],").data)),
  ((("\x22--white10\x22").data), (("[\x22240,235,229,0.10\x22, \x22all\x22],").data)),
  ((("\x22--white12\x22").data), (("[\x22240,235,229,0.12\x22, \x22all\x22],").data)),
  ((("\x22--white20\x22").data), (("[\x22240,235,229,0.20\x22, \x22all\x22],").data)),
  ((("\x22--white24\x22").data), (("[\x22240,235,229,0.24\x22, \x22all\x22],").data)),
  ((("\x22--white25\x22").data), (("[\x22240,235,229,0.25\x22, \x22all\x22],").data)),
  ((("\x22--white35\x22").data), (("[\x22240,235,229,0.35\x22, \x22all\x22],").data)),
  ((("\x22--white45\x22").data), (("[\x22240,235,229,0.45\x22, \x22all\x22],").data)),
  ((("\x22--white50\x22").data), (("[\x22240,235,229,0.50\x22, \x22all\x22],").data)),
  ((("\x22--white75\x22").data), (("[\x22240,235,229,0.75\x22, \x22all\x22],").data)),
  ((("\x22--white\x22").data), (("[\x22240,235,229\x22, \x22all\x22]").data))]

/-- Model of `_tsukimi_theme_json_block(indent, nl)`: the fixed literal
rendering; the closing line ends with a trailing comma. -/
def tsukimi_theme_json_block (indent nl : Str) : Str :=
  List.intercalate nl
    ([indent ++ (("\x22Tsukimi\x22: \x7b").data)] ++
     (tsukimiEntries.map (fun kv =>
        indent ++ (("    ").data) ++ kv.1 ++ ((": ").data) ++ kv.2)) ++
     [indent ++ (("\x7d,").data)])

/-- Match the key pattern (line-anchored `(\s*)"NAME"\s*:\s*` then an opening
brace) at the head of `s`; returns `(indent, seg, rest)` with
`s = indent ++ seg ++ openingBrace :: rest`. -/
def matchKeyAt (name : Str) (s : Str) : Option (Str × Str × Str) :=
  let ws := s.takeWhile pySpace
  let t1 := s.drop ws.length
  if name.isPrefixOf t1 then
    let t2 := t1.drop name.length
    let ws2 := t2.takeWhile pySpace
    match t2.drop ws2.length with
    | ':' :: t3 =>
      let ws3 := t3.takeWhile pySpace
      match t3.drop ws3.length with
      | '\x7b' :: t4 => some (ws, name ++ ws2 ++ ':' :: ws3, t4)
      | _ => none
    | _ => none
  else none

/-- Embedding of the key-pattern search:
`raw = pre ++ ind ++ seg ++ openingBrace :: rest`. -/
def keySearch (name : Str) (raw : Str) : Option (Str × Str × Str × Str) :=
  match scanLS (matchKeyAt name) [] true raw with
  | none => none
  | some (pre, ind, seg, rest) => some (pre, ind, seg, rest)

/-- The depth-counting loop over braces, starting at the opening brace;
returns `(span, rest)` where `span` runs from the opening brace to the
matching closing brace inclusive. -/
def braceScanAux (depth : Int) (pre : Str) : Str → Option (Str × Str)
  | [] => none
  | c :: r =>
    if c = '\x7b' then braceScanAux (depth + 1) (pre ++ [c]) r
    else if c = '\x7d' then
      if depth - 1 = 0 then some (pre ++ [c], r)
      else braceScanAux (depth - 1) (pre ++ [c]) r
    else braceScanAux depth (pre ++ [c]) r

def braceScan (s : Str) : Option (Str × Str) := braceScanAux 0 [] s

def quotedVariation : Str := ("\x22Variation\x22").data
def quotedTsukimi : Str := ("\x22Tsukimi\x22").data
def quotedMidnight : Str := ("\x22Midnight\x22").data

/-- Model of `_upsert_tsukimi_variation_in_theme_json(raw)`; a `ValueError` is
modelled as `Except.error` carrying the exception message. -/
def upsert_tsukimi_variation_in_theme_json (raw : Str) :
    Except Str (Str × Bool) :=
  let nl := detect_newline raw
  if containsSub quotedVariation raw then
    if containsSub quotedTsukimi raw then
      match keySearch quotedTsukimi raw with
      | none => .ok (raw, false)
      | some (pre, ind, _seg, rest) =>
        match braceScan ('\x7b' :: rest) with
        | none => .error (("theme.json: unterminated Tsukimi object").data)
        | some (_span, after) =>
          let sp := after.takeWhile hSpace
          let r1 := after.drop sp.length
          let r2 := match r1 with
                    | ',' :: r => r
                    | _ => r1
          let out := pre ++ tsukimi_theme_json_block ind nl ++ r2
          .ok (out, !(out == raw))
    else
      match keySearch quotedMidnight raw with
      | none => .error (("theme.json: could not find \x22Midnight\x22 variation block").data)
      | some (pre, ind, seg, rest) =>
        match braceScan ('\x7b' :: rest) with
        | none => .error (("theme.json: unterminated Midnight object").data)
        | some (span, after) =>
          let sp := after.takeWhile hSpace
          let r1 := after.drop sp.length
          let comma : Str := match r1 with
                             | ',' :: _ => [',']
                             | _ => []
          let r2 := r1.drop comma.length
          let consumedNl : Str := if nl.isPrefixOf r2 then nl else []
          let r3 := r2.drop consumedNl.length
          let pfx : Str := if nl.isPrefixOf r2 then [] else nl
          let out := pre ++ ind ++ seg ++ span ++ sp ++ comma ++
            consumedNl ++ pfx ++ tsukimi_theme_json_block ind nl ++ nl ++ r3
          .ok (out, true)
  else .error (("theme.json: could not find Variation patch").data)

/-! The custom.css snippet patch (the inline logic of `main`). -/

def CUSTOM_CSS_SNIPPET : Str :=
  ("/* Tsukimi (dark):\n\n--focus: 205, 177, 149;\n--clientBG: 13, 14, 18;\n--header_dark: 13, 14, 18;\n--bgGameList: 10, 11, 15;\n--frameBorder: 37, 42, 54;\n--textentry: 13, 14, 18;\n--white05onbgGameList: 15, 16, 21;\n--white: 240, 235, 229;\n--white45: 240, 235, 229, 0.45;\n\n*/\n").data

def snippetSentinel : Str := ("Tsukimi (dark)").data
def snippetMarker : Str := ("/* Metro White:").data

/-- The custom.css snippet patch as applied by `main`: sentinel check, insert
before the first marker occurrence, or append after trimming trailing
whitespace. -/
def patch_custom_css_main (t : Str) : Str :=
  if containsSub snippetSentinel t then t
  else
    let nl := detect_newline t
    match findSub snippetMarker t with
    | none => pyRstrip t ++ nl ++ nl ++ CUSTOM_CSS_SNIPPET ++ nl
    | some i => t.take i ++ CUSTOM_CSS_SNIPPET ++ nl ++ t.drop i

/-! The colour tables. -/

/-- Model of `_with_spaced_commas`:
`", ".join(part.strip() for part in rgb.split(","))`. -/
def with_spaced_commas (v : Str) : Str :=
  List.intercalate ((", ").data) ((v.splitOn ',').map pyStrip)

/-- The `TSUKIMI_RGB` dict, in its literal (insertion) order. -/
def TSUKIMI_RGB : List (Str × Str) := [
  ((("focus").data), (("205,177,149").data)),
  ((("clientBG").data), (("13,14,18").data)),
  ((("header_dark").data), (("13,14,18").data)),
  ((("online").data), (("138,159,186").data)),
  ((("ingame").data), (("138,154,128").data)),
  ((("offline").data), (("184,179,170").data)),
  ((("golden").data), (("229,213,184").data)),
  ((("textentry").data), (("13,14,18").data)),
  ((("frameBorder").data), (("37,42,54").data)),
  ((("bgGameList").data), (("10,11,15").data)),
  ((("white03").data), (("240,235,229,0.03").data)),
  ((("white05").data), (("240,235,229,0.05").data)),
  ((("white08").data), (("240,235,229,0.08").data)),
  ((("white10").data), (("240,235,229,0.10").data)),
  ((("white12").data), (("240,235,229,0.12").data)),
  ((("white20").data), (("240,235,229,0.20").data)),
  ((("white24").data), (("240,235,229,0.24").data)),
  ((("white25").data), (("240,235,229,0.25").data)),
  ((("white35").data), (("240,235,229,0.35").data)),
  ((("white45").data), (("240,235,229,0.45").data)),
  ((("white50").data), (("240,235,229,0.50").data)),
  ((("white75").data), (("240,235,229,0.75").data)),
  ((("white").data), (("240,235,229").data))]

/-- The replacement table for `libraryroot.custom.css`: the compact table with
`white05onbgGameList` added at the end of the dict. -/
def libraryTable : List (Str × Str) :=
  TSUKIMI_RGB ++ [((("white05onbgGameList").data), (("15,16,21").data))]

/-- The replacement table for `friends.custom.css` and
`notifications.custom.css` (`tsukimi_spaced`). -/
def spacedTable : List (Str × Str) :=
  TSUKIMI_RGB.map (fun kv => (kv.1, with_spaced_commas kv.2))

/-! A JSON validity checker, for the round-trip-validity claim. -/

def jsonWs (c : Char) : Bool := c == ' ' || c == '\t' || c == '\n' || c == '\r'

def skipWs (s : Str) : Str := s.dropWhile jsonWs

def jstringRest : Nat → Str → Option Str
  | 0, _ => none
  | _ + 1, [] => none
  | f + 1, c :: r =>
    if c = '\x22' then some r
    else if c = '\\' then
      match r with
      | [] => none
      | _ :: r2 => jstringRest f r2
    else if c = '\n' ∨ c = '\r' then none
    else jstringRest f r

def jdigits (s : Str) : Option Str :=
  let d := s.takeWhile (fun c => c.isDigit)
  if d.isEmpty then none else some (s.drop d.length)

def jnumberRest (s : Str) : Option Str :=
  let s1 := match s with
            | '-' :: r => r
            | _ => s
  match jdigits s1 with
  | none => none
  | some s2 =>
    let fracDone := match s2 with
                    | '.' :: r => jdigits r
                    | _ => some s2
    match fracDone with
    | none => none
    | some s3 =>
      match s3 with
      | 'e' :: r | 'E' :: r =>
        let r1 := match r with
                  | '+' :: r2 => r2
                  | '-' :: r2 => r2
                  | _ => r
        jdigits r1
      | _ => some s3

mutual

def jvalue : Nat → Str → Option Str
  | 0, _ => none
  | f + 1, s =>
    let s := skipWs s
    match s with
    | '\x7b' :: r => jmembers f r true
    | '[' :: r => jelements f r true
    | '\x22' :: r => jstringRest (f + 1) r
    | 't' :: r => if (("rue").data).isPrefixOf r then some (r.drop 3) else none
    | 'f' :: r => if (("alse").data).isPrefixOf r then some (r.drop 4) else none
    | 'n' :: r => if (("ull").data).isPrefixOf r then some (r.drop 3) else none
    | _ => jnumberRest s

def jmembers : Nat → Str → Bool → Option Str
  | 0, _, _ => none
  | f + 1, s, allowEnd =>
    let s := skipWs s
    match s with
    | '\x7d' :: r => if allowEnd then some r else none
    | '\x22' :: r =>
      match jstringRest (f + 1) r with
      | none => none
      | some r2 =>
        match skipWs r2 with
        | ':' :: r3 =>
          match jvalue f r3 with
          | none => none
          | some r4 =>
            match skipWs r4 with
            | ',' :: r5 => jmembers f r5 false
            | '\x7d' :: r6 => some r6
            | _ => none
        | _ => none
    | _ => none

def jelements : Nat → Str → Bool → Option Str
  | 0, _, _ => none
  | f + 1, s, allowEnd =>
    let s := skipWs s
    match s with
    | ']' :: r => if allowEnd then some r else none
    | _ =>
      match jvalue f s with
      | none => none
      | some r =>
        match skipWs r with
        | ',' :: r2 => jelements f r2 false
        | ']' :: r3 => some r3
        | _ => none

end

/-- Does `s` parse as a single JSON document (`json.loads` succeeds)? -/
def jsonValid (s : Str) : Bool :=
  match jvalue (4 * s.length + 16) s with
  | some r => (skipWs r).isEmpty
  | none => false

/-! The per-file CSS patch sequences applied by `main` (the orchestrator). -/

def friendsProps1 : List (Str × Str) := [
  ((("box-sizing").data), (("border-box !important").data)),
  ((("border").data), (("1px solid rgb(var(--frameBorder)) !important").data)),
  ((("border-right").data), (("none !important").data))]

def friendsProps2 : List (Str × Str) := [
  ((("box-sizing").data), (("border-box !important").data)),
  ((("border").data), (("1px solid rgb(var(--frameBorder)) !important").data)),
  ((("border-left").data), (("none !important").data))]

/-- The per-file CSS patch sequence of the orchestrator: variable replacement,
then the comment anchor, then (for webkit.css) the body background rewrite,
then (for friends.custom.css) the two selector-property patches. -/
def patchCssText (tbl : List (Str × Str)) (isWebkit isFriends : Bool)
    (t : Str) : Str :=
  let u1 := (replace_css_vars_in_root_block t tbl).1
  let u2 := (ensure_comment_before_var_in_root_block u1 (("focus").data)
    TSUKIMI_COMMENT).1
  let u3 := if isWebkit then (ensure_webkit_body_bg_uses_clientbg u2).1 else u2
  if isFriends then
    let a := (ensure_selector_properties u3 ((".friendlist").data) friendsProps1).1
    (ensure_selector_properties a ((".chatDialogs").data) friendsProps2).1
  else u3

/-! Infrastructure lemmas: decompositions of the matchers and searches. -/

lemma prefixOf_decomp {l s : Str} (h : l.isPrefixOf s = true) :
    s = l ++ s.drop l.length := by
  rcases List.isPrefixOf_iff_prefix.mp h with ⟨u, rfl⟩
  simp

lemma all_takeWhile (p : Char → Bool) (l : Str) : (l.takeWhile p).all p = true := by
  induction l with
  | nil => rfl
  | cons c r ih =>
    by_cases h : p c <;> simp [List.takeWhile_cons, h, ih]

lemma drop_takeWhile (p : Char → Bool) (l : Str) :
    l.drop (l.takeWhile p).length = l.dropWhile p := by
  induction l with
  | nil => rfl
  | cons c r ih =>
    by_cases h : p c <;> simp [List.takeWhile_cons, List.dropWhile_cons, h, ih]

lemma takeWhile_decomp (p : Char → Bool) (l : Str) :
    l = l.takeWhile p ++ l.drop (l.takeWhile p).length := by
  rw [drop_takeWhile]; exact (List.takeWhile_append_dropWhile p l).symm

lemma isPrefixOf_nil {pat : Str} (h : pat ≠ []) : pat.isPrefixOf ([] : Str) = false := by
  cases pat with
  | nil => exact absurd rfl h
  | cons c r => rfl

lemma findSub_some {pat s : Str} {i : Nat} (h : findSub pat s = some i) :
    pat.isPrefixOf (s.drop i) = true ∧ ∀ j, j < i → pat.isPrefixOf (s.drop j) = false := by
  induction s generalizing i with
  | nil =>
    unfold findSub at h
    by_cases hp : pat = []
    · refine ⟨?_, ?_⟩
      · simp only [hp] at h ⊢
        simp at h
        subst h
        rfl
      · simp [hp] at h
        subst h
        omega
    · simp [hp] at h
  | cons c r ih =>
    unfold findSub at h
    cases hp : pat.isPrefixOf (c :: r) with
    | true =>
      rw [hp] at h
      simp at h
      subst h
      exact ⟨hp, by omega⟩
    | false =>
      rw [hp] at h
      rw [if_neg Bool.false_ne_true] at h
      rw [Option.map_eq_some'] at h
      obtain ⟨i0, h0, rfl⟩ := h
      obtain ⟨h1, h2⟩ := ih h0
      refine ⟨by simpa using h1, ?_⟩
      intro j hj
      cases j with
      | zero => simpa using hp
      | succ j0 => simpa using h2 j0 (by omega)

lemma findSub_none {pat s : Str} (h : findSub pat s = none) :
    ∀ j, pat.isPrefixOf (s.drop j) = false := by
  induction s with
  | nil =>
    unfold findSub at h
    by_cases hp : pat = []
    · simp [hp] at h
    · intro j
      rw [List.drop_nil]
      exact isPrefixOf_nil hp
  | cons c r ih =>
    unfold findSub at h
    cases hp : pat.isPrefixOf (c :: r) with
    | true => rw [hp] at h; simp at h
    | false =>
      rw [hp] at h
      rw [if_neg Bool.false_ne_true] at h
      rw [Option.map_eq_none'] at h
      intro j
      cases j with
      | zero => simpa using hp
      | succ j0 => simpa using ih h j0

lemma containsSub_false {pat s : Str} (h : containsSub pat s = false) :
    ∀ j, pat.isPrefixOf (s.drop j) = false := by
  unfold containsSub at h
  cases hf : findSub pat s with
  | none => exact findSub_none hf
  | some i => rw [hf] at h; simp at h

/-- Soundness of the all-positions scan. -/
lemma scanAll_eq_some {β : Type} {M : Str → Option β} {pre s a : Str} {b : β}
    (h : scanAll M pre s = some (a, b)) :
    ∃ u v, s = u ++ v ∧ a = pre ++ u ∧ M v = some b := by
  induction s generalizing pre with
  | nil => simp [scanAll] at h
  | cons c r ih =>
    unfold scanAll at h
    cases hm : M (c :: r) with
    | some b0 =>
      rw [hm] at h
      simp at h
      obtain ⟨ha, hb⟩ := h
      exact ⟨[], c :: r, by simp, by simp [ha.symm], by rw [hm, hb]⟩
    | none =>
      rw [hm] at h
      obtain ⟨u, v, hs, ha, hm2⟩ := ih h
      exact ⟨c :: u, v, by simp [hs], by simp [ha], hm2⟩

/-- Soundness of the line-start scan: additionally, the match position is a
line start (the scan start itself when `atLS` is set, or a position right
after a newline). -/
lemma scanLS_eq_some {β : Type} {M : Str → Option β} {pre s a : Str}
    {atLS : Bool} {b : β} (h : scanLS M pre atLS s = some (a, b)) :
    ∃ u v, s = u ++ v ∧ a = pre ++ u ∧ M v = some b ∧
      ((u = [] ∧ atLS = true) ∨ ∃ u0, u = u0 ++ ['\n']) := by
  induction s generalizing pre atLS with
  | nil => simp [scanLS] at h
  | cons c r ih =>
    unfold scanLS at h
    cases hls : atLS with
    | true =>
      rw [hls] at h
      simp only [if_true] at h
      cases hm : M (c :: r) with
      | some b0 =>
        rw [hm] at h
        simp at h
        obtain ⟨ha, hb⟩ := h
        exact ⟨[], c :: r, by simp, by simp [ha.symm], by rw [hm, hb],
          Or.inl ⟨rfl, rfl⟩⟩
      | none =>
        rw [hm] at h
        obtain ⟨u, v, hs, ha, hm2, hd⟩ := ih h
        refine ⟨c :: u, v, by simp [hs], by simp [ha], hm2, Or.inr ?_⟩
        rcases hd with ⟨rfl, hc⟩ | ⟨u0, rfl⟩
        · exact ⟨[], by simpa using (beq_iff_eq.mp hc)⟩
        · exact ⟨c :: u0, by simp⟩
    | false =>
      rw [hls] at h
      rw [if_neg Bool.false_ne_true] at h
      obtain ⟨u, v, hs, ha, hm2, hd⟩ := ih h
      refine ⟨c :: u, v, by simp [hs], by simp [ha], hm2, Or.inr ?_⟩
      rcases hd with ⟨rfl, hc⟩ | ⟨u0, rfl⟩
      · exact ⟨[], by simpa using (beq_iff_eq.mp hc)⟩
      · exact ⟨c :: u0, by simp⟩

lemma matchRootOpen_some {s op rem : Str} (h : matchRootOpen s = some (op, rem)) :
    s = op ++ rem ∧ ∃ ws, op = ((":root").data) ++ ws ++ ['\x7b'] ∧
      ws.all pySpace = true := by
  unfold matchRootOpen at h
  cases hp : ((":root").data).isPrefixOf s with
  | false => rw [hp] at h; rw [if_neg Bool.false_ne_true] at h; cases h
  | true =>
    rw [hp, if_pos rfl] at h
    dsimp only at h
    have hs : s = ((":root").data) ++ s.drop 5 := prefixOf_decomp hp
    split at h
    next r heq =>
      rw [Option.some.injEq, Prod.mk.injEq] at h
      obtain ⟨hop, hrem⟩ := h
      subst hop; subst hrem
      constructor
      · rw [hs]
        conv_lhs => rw [takeWhile_decomp pySpace (s.drop 5)]
        rw [heq]
        simp
      · exact ⟨(s.drop 5).takeWhile pySpace, rfl, all_takeWhile _ _⟩
    next _ _ => cases h

lemma rootAt_some {s op body rest : Str} (h : rootAt s = some (op, body, rest)) :
    s = op ++ body ++ rest ∧
    (∃ ws, op = ((":root").data) ++ ws ++ ['\x7b'] ∧ ws.all pySpace = true) ∧
    nlBrace.isPrefixOf rest = true ∧ containsSub nlBrace body = false := by
  unfold rootAt at h
  split at h
  next => cases h
  next op0 rem hm =>
    obtain ⟨hdec, hws⟩ := matchRootOpen_some hm
    split at h
    next => cases h
    next k hf =>
      rw [Option.some.injEq, Prod.mk.injEq] at h
      obtain ⟨hop, h2⟩ := h
      rw [Prod.mk.injEq] at h2
      obtain ⟨hbody, hrest⟩ := h2
      subst hop; subst hbody; subst hrest
      obtain ⟨hpref, hmin⟩ := findSub_some hf
      refine ⟨by rw [hdec]; simp, hws, hpref, ?_⟩
      cases hcs : containsSub nlBrace (rem.take k) with
      | false => rfl
      | true =>
        exfalso
        unfold containsSub at hcs
        cases hfs : findSub nlBrace (rem.take k) with
        | none => rw [hfs] at hcs; simp at hcs
        | some j =>
          obtain ⟨hp2, _⟩ := findSub_some hfs
          have hj : j + 2 ≤ k := by
            by_contra hjk
            have hlen : ((rem.take k).drop j).length < 2 := by
              have h1 : ((rem.take k)).length ≤ k := List.length_take_le k rem
              rw [List.length_drop]
              omega
            rcases List.isPrefixOf_iff_prefix.mp hp2 with ⟨u, hu⟩
            have : ((rem.take k).drop j).length = 2 + u.length := by
              rw [← hu]; simp [nlBrace]; omega
            omega
          have hdj : (rem.take k).drop j = (rem.drop j).take (k - j) := by
            rw [List.drop_take]
          have hp3 : nlBrace.isPrefixOf (rem.drop j) = true := by
            rcases List.isPrefixOf_iff_prefix.mp hp2 with ⟨u, hu⟩
            rw [hdj] at hu
            have hsplit : rem.drop j = (nlBrace ++ u) ++ (rem.drop j).drop (k - j) := by
              conv_lhs => rw [← List.take_append_drop (k - j) (rem.drop j)]
              rw [← hu]
            apply List.isPrefixOf_iff_prefix.mpr
            refine ⟨u ++ (rem.drop j).drop (k - j), ?_⟩
            conv_rhs => rw [hsplit]
            simp
          have := hmin j (by omega)
          rw [hp3] at this
          cases this

lemma rootSearch_decomp {t pre opn body rest : Str}
    (h : rootSearch t = some (pre, opn, body, rest)) :
    t = pre ++ opn ++ body ++ rest ∧
    (∃ ws, opn = ((":root").data) ++ ws ++ ['\x7b'] ∧ ws.all pySpace = true) ∧
    nlBrace.isPrefixOf rest = true ∧ containsSub nlBrace body = false := by
  unfold rootSearch at h
  split at h
  next => cases h
  next pre0 op0 body0 rest0 hs =>
    rw [Option.some.injEq, Prod.mk.injEq] at h
    obtain ⟨h1, h2⟩ := h
    rw [Prod.mk.injEq] at h2
    obtain ⟨h2a, h2b⟩ := h2
    rw [Prod.mk.injEq] at h2b
    obtain ⟨h2c, h2d⟩ := h2b
    subst h1; subst h2a; subst h2c; subst h2d
    obtain ⟨u, v, htv, hpre, hM⟩ := scanAll_eq_some hs
    obtain ⟨hv, hws, hrest, hbody⟩ := rootAt_some hM
    subst htv
    simp only [List.nil_append] at hpre
    subst hpre
    exact ⟨by rw [hv]; simp, hws, hrest, hbody⟩

lemma matchSelOpen_some {sel s hd rem : Str} (h : matchSelOpen sel s = some (hd, rem)) :
    s = hd ++ rem ∧ ∃ ws ws2, hd = ws ++ sel ++ ws2 ++ ['\x7b'] ∧
      ws.all pySpace = true ∧ ws2.all pySpace = true := by
  unfold matchSelOpen at h
  dsimp only at h
  cases hp : sel.isPrefixOf (s.drop (s.takeWhile pySpace).length) with
  | false => rw [hp] at h; rw [if_neg Bool.false_ne_true] at h; cases h
  | true =>
    rw [hp, if_pos rfl] at h
    have hs1 : s = s.takeWhile pySpace ++ s.drop (s.takeWhile pySpace).length :=
      takeWhile_decomp pySpace s
    have hs2 : s.drop (s.takeWhile pySpace).length =
        sel ++ (s.drop (s.takeWhile pySpace).length).drop sel.length :=
      prefixOf_decomp hp
    split at h
    next r heq =>
      rw [Option.some.injEq, Prod.mk.injEq] at h
      obtain ⟨hop, hrem⟩ := h
      subst hop; subst hrem
      constructor
      · conv_lhs => rw [hs1]
        conv_lhs => rw [hs2]
        conv_lhs =>
          rw [takeWhile_decomp pySpace ((s.drop (s.takeWhile pySpace).length).drop sel.length)]
        rw [heq]
        simp
      · exact ⟨_, _, rfl, all_takeWhile _ _, all_takeWhile _ _⟩
    next _ _ => cases h

lemma matchClose_some {s cl rest : Str} (h : matchClose s = some (cl, rest)) :
    s = cl ++ rest ∧ ∃ ws ws2, cl = ws ++ '\x7d' :: ws2 ∧
      ws.all pySpace = true ∧ ws2.all pySpace = true := by
  unfold matchClose at h
  dsimp only at h
  split at h
  next r heq =>
    rw [Option.some.injEq, Prod.mk.injEq] at h
    obtain ⟨hcl, hrest⟩ := h
    subst hcl; subst hrest
    constructor
    · conv_lhs => rw [takeWhile_decomp pySpace s]
      rw [heq]
      conv_lhs => rw [takeWhile_decomp pySpace r]
      simp
    · exact ⟨_, _, rfl, all_takeWhile _ _, all_takeWhile _ _⟩
  next _ _ => cases h

lemma selAt_some {sel s hd body cl rest : Str}
    (h : selAt sel s = some (hd, body, cl, rest)) :
    s = hd ++ body ++ cl ++ rest ∧
    (∃ ws ws2, hd = ws ++ sel ++ ws2 ++ ['\x7b'] ∧
      ws.all pySpace = true ∧ ws2.all pySpace = true) ∧
    (∃ ws ws2, cl = ws ++ '\x7d' :: ws2 ∧
      ws.all pySpace = true ∧ ws2.all pySpace = true) ∧
    (∃ b0, body = b0 ++ ['\n']) := by
  unfold selAt at h
  split at h
  next => cases h
  next hd0 rem hm =>
    split at h
    next => cases h
    next body0 cl0 rest0 hsc =>
      rw [Option.some.injEq, Prod.mk.injEq] at h
      obtain ⟨h1, h2⟩ := h
      rw [Prod.mk.injEq] at h2
      obtain ⟨h2a, h2b⟩ := h2
      rw [Prod.mk.injEq] at h2b
      obtain ⟨h2c, h2d⟩ := h2b
      subst h1; subst h2a; subst h2c; subst h2d
      obtain ⟨hs, hhd⟩ := matchSelOpen_some hm
      obtain ⟨u, v, huv, hbody, hM, hls⟩ := scanLS_eq_some hsc
      simp only [List.nil_append] at hbody
      subst hbody
      obtain ⟨hv, hcl⟩ := matchClose_some hM
      rcases hls with ⟨_, hfalse⟩ | ⟨u0, hu0⟩
      · cases hfalse
      · refine ⟨?_, hhd, hcl, ⟨u0, hu0⟩⟩
        rw [hs, huv, hv]
        simp

lemma selSearch_decomp {sel t pre hd body cl rest : Str}
    (h : selSearch sel t = some (pre, hd, body, cl, rest)) :
    t = pre ++ hd ++ body ++ cl ++ rest ∧
    (∃ ws ws2, hd = ws ++ sel ++ ws2 ++ ['\x7b'] ∧
      ws.all pySpace = true ∧ ws2.all pySpace = true) ∧
    (∃ ws ws2, cl = ws ++ '\x7d' :: ws2 ∧
      ws.all pySpace = true ∧ ws2.all pySpace = true) ∧
    (∃ b0, body = b0 ++ ['\n']) ∧
    (pre = [] ∨ ∃ p0, pre = p0 ++ ['\n']) := by
  unfold selSearch at h
  split at h
  next => cases h
  next pre0 hd0 body0 cl0 rest0 hs =>
    rw [Option.some.injEq, Prod.mk.injEq] at h
    obtain ⟨h1, h2⟩ := h
    rw [Prod.mk.injEq] at h2
    obtain ⟨h2a, h2b⟩ := h2
    rw [Prod.mk.injEq] at h2b
    obtain ⟨h2c, h2d⟩ := h2b
    rw [Prod.mk.injEq] at h2d
    obtain ⟨h2e, h2f⟩ := h2d
    subst h1; subst h2a; subst h2c; subst h2e; subst h2f
    obtain ⟨u, v, huv, hpre, hM, hls⟩ := scanLS_eq_some hs
    simp only [List.nil_append] at hpre
    subst hpre
    obtain ⟨hv, hhd, hcl, hbody⟩ := selAt_some hM
    refine ⟨?_, hhd, hcl, hbody, ?_⟩
    · rw [huv, hv]; simp
    · rcases hls with ⟨hu, _⟩ | ⟨u0, hu0⟩
      · exact Or.inl hu
      · exact Or.inr ⟨u0, hu0⟩

lemma matchKeyAt_some {name s ind seg rest : Str}
    (h : matchKeyAt name s = some (ind, seg, rest)) :
    s = ind ++ seg ++ '\x7b' :: rest ∧ ind.all pySpace = true ∧
    ∃ ws2 ws3, seg = name ++ ws2 ++ ':' :: ws3 ∧
      ws2.all pySpace = true ∧ ws3.all pySpace = true := by
  unfold matchKeyAt at h
  dsimp only at h
  cases hp : name.isPrefixOf (s.drop (s.takeWhile pySpace).length) with
  | false => rw [hp] at h; rw [if_neg Bool.false_ne_true] at h; cases h
  | true =>
    rw [hp, if_pos rfl] at h
    have hs1 : s = s.takeWhile pySpace ++ s.drop (s.takeWhile pySpace).length :=
      takeWhile_decomp pySpace s
    have hs2 : s.drop (s.takeWhile pySpace).length =
        name ++ (s.drop (s.takeWhile pySpace).length).drop name.length :=
      prefixOf_decomp hp
    split at h
    next t3 heq =>
      split at h
      next t4 heq2 =>
        rw [Option.some.injEq, Prod.mk.injEq] at h
        obtain ⟨h1, h2⟩ := h
        rw [Prod.mk.injEq] at h2
        obtain ⟨h2a, h2b⟩ := h2
        subst h1; subst h2a; subst h2b
        refine ⟨?_, all_takeWhile _ _, _, _, rfl, all_takeWhile _ _, all_takeWhile _ _⟩
        conv_lhs => rw [hs1]
        conv_lhs => rw [hs2]
        conv_lhs =>
          rw [takeWhile_decomp pySpace ((s.drop (s.takeWhile pySpace).length).drop name.length)]
        rw [heq]
        conv_lhs => rw [takeWhile_decomp pySpace t3]
        rw [heq2]
        simp
      next _ _ => cases h
    next _ _ => cases h

lemma keySearch_decomp {name raw pre ind seg rest : Str}
    (h : keySearch name raw = some (pre, ind, seg, rest)) :
    raw = pre ++ ind ++ seg ++ '\x7b' :: rest ∧ ind.all pySpace = true ∧
    (∃ ws2 ws3, seg = name ++ ws2 ++ ':' :: ws3 ∧
      ws2.all pySpace = true ∧ ws3.all pySpace = true) ∧
    (pre = [] ∨ ∃ p0, pre = p0 ++ ['\n']) := by
  unfold keySearch at h
  split at h
  next => cases h
  next pre0 ind0 seg0 rest0 hs =>
    rw [Option.some.injEq, Prod.mk.injEq] at h
    obtain ⟨h1, h2⟩ := h
    rw [Prod.mk.injEq] at h2
    obtain ⟨h2a, h2b⟩ := h2
    rw [Prod.mk.injEq] at h2b
    obtain ⟨h2c, h2d⟩ := h2b
    subst h1; subst h2a; subst h2c; subst h2d
    obtain ⟨u, v, huv, hpre, hM, hls⟩ := scanLS_eq_some hs
    simp only [List.nil_append] at hpre
    subst hpre
    obtain ⟨hv, hind, hseg⟩ := matchKeyAt_some hM
    refine ⟨by rw [huv, hv]; simp, hind, hseg, ?_⟩
    rcases hls with ⟨hu, _⟩ | ⟨u0, hu0⟩
    · exact Or.inl hu
    · exact Or.inr ⟨u0, hu0⟩

lemma braceScanAux_decomp {d : Int} {pre s span rest : Str}
    (h : braceScanAux d pre s = some (span, rest)) :
    ∃ u, span = pre ++ u ∧ s = u ++ rest := by
  induction s generalizing d pre with
  | nil => simp [braceScanAux] at h
  | cons c r ih =>
    unfold braceScanAux at h
    by_cases hb : c = '\x7b'
    · rw [if_pos hb] at h
      obtain ⟨u, hspan, hr⟩ := ih h
      exact ⟨c :: u, by simp [hspan], by simp [hr]⟩
    · rw [if_neg hb] at h
      by_cases hc : c = '\x7d'
      · rw [if_pos hc] at h
        by_cases hd : d - 1 = 0
        · rw [if_pos hd] at h
          rw [Option.some.injEq, Prod.mk.injEq] at h
          obtain ⟨h1, h2⟩ := h
          subst h1; subst h2
          exact ⟨[c], by simp, rfl⟩
        · rw [if_neg hd] at h
          obtain ⟨u, hspan, hr⟩ := ih h
          exact ⟨c :: u, by simp [hspan], by simp [hr]⟩
      · rw [if_neg hc] at h
        obtain ⟨u, hspan, hr⟩ := ih h
        exact ⟨c :: u, by simp [hspan], by simp [hr]⟩

lemma braceScan_decomp {s span rest : Str} (h : braceScan s = some (span, rest)) :
    s = span ++ rest := by
  obtain ⟨u, hspan, hr⟩ := braceScanAux_decomp h
  rw [hspan, hr]
  simp

lemma matchVarAt_some {var s g1 g2 rest : Str}
    (h : matchVarAt var s = some (g1, g2, rest)) :
    s = g1 ++ g2 ++ ';' :: rest ∧
    (∃ ind ws1 ws2, g1 = ind ++ '-' :: '-' :: var ++ ws1 ++ ':' :: ws2 ∧
      ind.all hSpace = true ∧ ws1.all pySpace = true ∧ ws2.all pySpace = true) ∧
    g2.all (fun c => c != ';') = true := by
  unfold matchVarAt at h
  dsimp only at h
  cases hp : (('-' :: '-' :: var)).isPrefixOf (s.drop (s.takeWhile hSpace).length) with
  | false => rw [hp] at h; rw [if_neg Bool.false_ne_true] at h; cases h
  | true =>
    rw [hp, if_pos rfl] at h
    have hs1 : s = s.takeWhile hSpace ++ s.drop (s.takeWhile hSpace).length :=
      takeWhile_decomp hSpace s
    have hs2 : s.drop (s.takeWhile hSpace).length =
        ('-' :: '-' :: var) ++ (s.drop (s.takeWhile hSpace).length).drop (var.length + 2) :=
      by
        have := prefixOf_decomp hp
        simpa using this
    split at h
    next t3 heq =>
      split at h
      next t5 heq2 =>
        rw [Option.some.injEq, Prod.mk.injEq] at h
        obtain ⟨h1, h2⟩ := h
        rw [Prod.mk.injEq] at h2
        obtain ⟨h2a, h2b⟩ := h2
        subst h1; subst h2a; subst h2b
        refine ⟨?_, ⟨_, _, _, rfl, all_takeWhile _ _, all_takeWhile _ _,
          all_takeWhile _ _⟩, all_takeWhile _ _⟩
        conv_lhs => rw [hs1]
        conv_lhs => rw [hs2]
        conv_lhs =>
          rw [takeWhile_decomp pySpace ((s.drop (s.takeWhile hSpace).length).drop (var.length + 2))]
        rw [heq]
        conv_lhs => rw [takeWhile_decomp pySpace t3]
        conv_lhs =>
          rw [takeWhile_decomp (fun c => c != ';')
            (t3.drop (t3.takeWhile pySpace).length)]
        rw [heq2]
        simp
      next _ _ => cases h
    next _ _ => cases h

/-! Concrete documents used by the claim theorems. -/

def c9raw : Str :=
  ("\x7b\x22patches\x22: \x7b\x22Variation\x22: \x7b\x22values\x22: \x7b\x22fav\x22: \x22Tsukimi\x22\x7d\x7d\x7d\x7d").data

def cssNoRoot : Str := ("body \x7b background: red; \x7d\n").data

def noVariationRaw : Str := ("\x7b\x22patches\x22: \x7b\x7d\x7d").data

/-- The `ValueError` message raised when the `"Variation"` key is absent. -/
def variationErrMsg : Str := ("theme.json: could not find Variation patch").data

/-- Claim C9.

If the raw text contains the quoted substring `"Tsukimi"` but the line-anchored
key pattern does not match anywhere, the upserter returns the document
unchanged with changed flag `false`: it neither inserts after Midnight nor
raises. -/
theorem C9_no_key_pattern_no_change (raw : Str)
    (hv : containsSub quotedVariation raw = true)
    (ht : containsSub quotedTsukimi raw = true)
    (hk : keySearch quotedTsukimi raw = none) :
    upsert_tsukimi_variation_in_theme_json raw = .ok (raw, false) := by
  unfold upsert_tsukimi_variation_in_theme_json
  dsimp only
  rw [hv, ht, hk]
  rfl

/-- Witness for C9 at a concrete theme.json whose only `"Tsukimi"` occurrence
is a string value. -/
theorem C9_witness :
    upsert_tsukimi_variation_in_theme_json c9raw = .ok (c9raw, false) :=
  C9_no_key_pattern_no_change c9raw (by decide) (by decide) (by decide)

/-- Counterexample for C5: on a CSS document with no `:root` block, the CSS
patchers return the document unchanged with no error at all (no fatal
`MissingStructure`), contradicting the claim that a missing `:root` block
terminates the run with a non-zero exit. -/
theorem C5_counterexample :
    replace_css_vars_in_root_block cssNoRoot libraryTable = (cssNoRoot, []) ∧
    ensure_comment_before_var_in_root_block cssNoRoot (("focus").data)
      TSUKIMI_COMMENT = (cssNoRoot, false) := by
  constructor
  · decide
  · decide

/-- Claim C5, amended.

A missing `"Variation"` key in theme.json is fatal (a `ValueError` whose
message names the Variation patch); a missing `:root` block in a CSS file is
not an error: both CSS patchers silently return the text unchanged. -/
theorem C5_missing_structure (raw t var comment : Str)
    (repl : List (Str × Str))
    (hv : containsSub quotedVariation raw = false)
    (hr : rootSearch t = none) :
    upsert_tsukimi_variation_in_theme_json raw = .error variationErrMsg ∧
    replace_css_vars_in_root_block t repl = (t, []) ∧
    ensure_comment_before_var_in_root_block t var comment = (t, false) := by
  refine ⟨?_, ?_, ?_⟩
  · unfold upsert_tsukimi_variation_in_theme_json
    dsimp only
    rw [hv]
    rw [if_neg Bool.false_ne_true]
    rfl
  · unfold replace_css_vars_in_root_block
    rw [hr]
  · unfold ensure_comment_before_var_in_root_block
    rw [hr]

/-- Witness for C5 at concrete inputs. -/
theorem C5_witness :
    upsert_tsukimi_variation_in_theme_json noVariationRaw = .error variationErrMsg ∧
    replace_css_vars_in_root_block cssNoRoot libraryTable = (cssNoRoot, []) ∧
    ensure_comment_before_var_in_root_block cssNoRoot (("x").data) (("c").data) =
      (cssNoRoot, false) :=
  C5_missing_structure noVariationRaw cssNoRoot (("x").data) (("c").data)
    libraryTable (by decide) (by decide)

/-- Claim C10.

When the first `selector` block's first property-pattern match is byte-equal
to the canonical desired line, the function still reports changed = `true`
although the returned text equals the input. -/
theorem C10_changed_true_text_equal (t sel prop value pre hd body cl rest
    bpre brest : Str)
    (hsel : selSearch sel t = some (pre, hd, body, cl, rest))
    (hscan : scanLS (matchPropAt prop) [] true body = some (bpre, brest))
    (hid : bpre ++ desiredLine prop value ++ brest = body) :
    ensure_selector_properties t sel [(prop, value)] = (t, true) := by
  obtain ⟨hdec, _⟩ := selSearch_decomp hsel
  unfold ensure_selector_properties
  rw [hsel]
  dsimp only
  simp only [List.foldl_cons, List.foldl_nil]
  unfold propStep
  dsimp only
  rw [hscan]
  dsimp only
  rw [hid, hdec]
  rfl

def c10doc : Str :=
  (".friendlist \x7b    box-sizing: border-box !important;\n\x7d\n").data

def c10body : Str := ("    box-sizing: border-box !important;\n").data

/-- Witness for C10: a friendlist block already carrying the canonical
box-sizing line (directly after the opening brace, so that the matched span is
exactly the canonical line). -/
theorem C10_witness :
    ensure_selector_properties c10doc ((".friendlist").data)
      [((("box-sizing").data), (("border-box !important").data))] = (c10doc, true) :=
  C10_changed_true_text_equal c10doc ((".friendlist").data) (("box-sizing").data)
    (("border-box !important").data) [] ((".friendlist \x7b").data) c10body
    (("\x7d\n").data) [] [] (("\n").data) (by decide) (by decide) (by decide)

/-! Lemmas about substring containment and trailing-whitespace trimming. -/

lemma findSub_cons (pat : Str) (c : Char) (r : Str) :
    findSub pat (c :: r) = if pat.isPrefixOf (c :: r) = true then some 0
      else (findSub pat r).map (· + 1) := rfl

lemma containsSub_cons {pat : Str} (c : Char) {r : Str}
    (h : containsSub pat r = true) : containsSub pat (c :: r) = true := by
  unfold containsSub at h ⊢
  rw [findSub_cons]
  by_cases hp : pat.isPrefixOf (c :: r) = true
  · rw [if_pos hp]; rfl
  · rw [if_neg hp]; simpa using h

lemma containsSub_head {pat b : Str} : containsSub pat (pat ++ b) = true := by
  cases pat with
  | nil =>
    unfold containsSub
    cases b with
    | nil => rfl
    | cons c r =>
      rw [List.nil_append, findSub_cons]
      rw [if_pos (by rfl)]
      rfl
  | cons c r =>
    unfold containsSub
    rw [List.cons_append, findSub_cons]
    rw [if_pos (List.isPrefixOf_iff_prefix.mpr ?_)]
    · rfl
    · rw [← List.cons_append]
      exact List.prefix_append _ _

lemma containsSub_of_split {pat s a b : Str} (h : s = a ++ pat ++ b) :
    containsSub pat s = true := by
  subst h
  induction a with
  | nil =>
    rw [List.nil_append]
    exact containsSub_head
  | cons c a0 ih =>
    exact containsSub_cons c ih

lemma containsSub_to_split {pat s : Str} (h : containsSub pat s = true) :
    ∃ a b, s = a ++ pat ++ b := by
  unfold containsSub at h
  cases hf : findSub pat s with
  | none => rw [hf] at h; cases h
  | some i =>
    obtain ⟨hp, _⟩ := findSub_some hf
    rcases List.isPrefixOf_iff_prefix.mp hp with ⟨u, hu⟩
    refine ⟨s.take i, u, ?_⟩
    conv_lhs => rw [← List.take_append_drop i s]
    rw [← hu]
    simp

lemma pyRstrip_decomp (s : Str) :
    ∃ w, s = pyRstrip s ++ w ∧ w.all pySpace = true := by
  refine ⟨(s.reverse.takeWhile pySpace).reverse, ?_, ?_⟩
  · have h := List.takeWhile_append_dropWhile pySpace s.reverse
    calc s = s.reverse.reverse := (List.reverse_reverse s).symm
    _ = (s.reverse.takeWhile pySpace ++ s.reverse.dropWhile pySpace).reverse := by
        rw [h]
    _ = pyRstrip s ++ (s.reverse.takeWhile pySpace).reverse := by
        rw [List.reverse_append]; rfl
  · rw [List.all_reverse]
    exact all_takeWhile _ _

def c7doc : Str := ("a /* Metro White:\n").data

/-- Counterexample for C7: when the marker occurs mid-line, the snippet is
inserted immediately before the marker substring (here at byte offset 2), not
before the marker's line (offset 0), contradicting the claim. -/
theorem C7_counterexample :
    patch_custom_css_main c7doc =
      c7doc.take 2 ++ CUSTOM_CSS_SNIPPET ++ ['\n'] ++ c7doc.drop 2 ∧
    patch_custom_css_main c7doc ≠ CUSTOM_CSS_SNIPPET ++ ['\n'] ++ c7doc := by
  constructor
  · decide
  · decide

/-- Claim C7, amended.

Sentinel present: no-op.  Marker present: the snippet plus one newline is
inserted immediately before the first occurrence of the marker substring
(which is the marker's line start only when the marker starts its line).
Marker absent: the snippet is appended after trimming trailing whitespace,
separated by exactly one blank line. -/
theorem C7_snippet_cases :
    (∀ t, containsSub snippetSentinel t = true → patch_custom_css_main t = t) ∧
    (∀ t i, containsSub snippetSentinel t = false →
      findSub snippetMarker t = some i →
      patch_custom_css_main t =
        t.take i ++ CUSTOM_CSS_SNIPPET ++ detect_newline t ++ t.drop i ∧
      snippetMarker.isPrefixOf (t.drop i) = true ∧
      (∀ j, j < i → snippetMarker.isPrefixOf (t.drop j) = false)) ∧
    (∀ t, containsSub snippetSentinel t = false →
      findSub snippetMarker t = none →
      patch_custom_css_main t =
        pyRstrip t ++ detect_newline t ++ detect_newline t ++
          CUSTOM_CSS_SNIPPET ++ detect_newline t ∧
      ∃ w, t = pyRstrip t ++ w ∧ w.all pySpace = true) := by
  refine ⟨?_, ?_, ?_⟩
  · intro t hs
    unfold patch_custom_css_main
    rw [hs, if_pos rfl]
  · intro t i hs hf
    obtain ⟨hp, hmin⟩ := findSub_some hf
    refine ⟨?_, hp, hmin⟩
    unfold patch_custom_css_main
    rw [hs, if_neg Bool.false_ne_true]
    dsimp only
    rw [hf]
  · intro t hs hf
    refine ⟨?_, pyRstrip_decomp t⟩
    unfold patch_custom_css_main
    rw [hs, if_neg Bool.false_ne_true]
    dsimp only
    rw [hf]

def c7sent : Str := ("x /* Tsukimi (dark) */\n").data
def c7mark : Str := ("/* Metro White:\nbody \x7b\x7d\n").data
def c7plain : Str := ("x;\n\n\n").data

/-- Witness for C7 at three concrete documents, one per case. -/
theorem C7_witness :
    patch_custom_css_main c7sent = c7sent ∧
    (patch_custom_css_main c7mark =
        c7mark.take 0 ++ CUSTOM_CSS_SNIPPET ++ detect_newline c7mark ++ c7mark.drop 0 ∧
      snippetMarker.isPrefixOf (c7mark.drop 0) = true ∧
      (∀ j, j < 0 → snippetMarker.isPrefixOf (c7mark.drop j) = false)) ∧
    (patch_custom_css_main c7plain =
        pyRstrip c7plain ++ detect_newline c7plain ++ detect_newline c7plain ++
          CUSTOM_CSS_SNIPPET ++ detect_newline c7plain ∧
      ∃ w, c7plain = pyRstrip c7plain ++ w ∧ w.all pySpace = true) :=
  ⟨C7_snippet_cases.1 c7sent (by decide),
   C7_snippet_cases.2.1 c7mark 0 (by decide) (by decide),
   C7_snippet_cases.2.2 c7plain (by decide) (by decide)⟩

def cexRootDoc : Str :=
  (":root \x7b\n--clientBG: \n--focus: x;\n--focus: y;\n\x7d\n").data

/-- Counterexample for C1: the Property Rewriter with its actual replacement
table, and the full per-file patch sequence built from it, are not idempotent
on a `:root` body in which one declaration has no semicolon before its line
break; the second application still differs from the first. -/
theorem C1_counterexample :
    (replace_css_vars_in_root_block
        (replace_css_vars_in_root_block cexRootDoc libraryTable).1 libraryTable).1 ≠
      (replace_css_vars_in_root_block cexRootDoc libraryTable).1 ∧
    patchCssText libraryTable false false
        (patchCssText libraryTable false false cexRootDoc) ≠
      patchCssText libraryTable false false cexRootDoc := by
  constructor
  · decide
  · decide

/-- Claim C1, amended.

The Snippet Inserter is idempotent for every document: applying it twice
yields the same result as applying it once (its sentinel occurs inside the
inserted snippet, so the second run is a no-op).  The Property Rewriter with
its actual parameters, and hence the complete per-file patch sequence, are not
idempotent for every document. -/
theorem C1_snippet_idempotent (t : Str) :
    patch_custom_css_main (patch_custom_css_main t) = patch_custom_css_main t := by
  by_cases hs : containsSub snippetSentinel t = true
  · have h1 : patch_custom_css_main t = t := by
      unfold patch_custom_css_main
      rw [hs, if_pos rfl]
    rw [h1]
    exact h1
  · have hs2 : containsSub snippetSentinel t = false := by
      cases hcs : containsSub snippetSentinel t with
      | true => exact absurd hcs hs
      | false => rfl
    have hsplit : ∃ a b, patch_custom_css_main t = a ++ CUSTOM_CSS_SNIPPET ++ b := by
      unfold patch_custom_css_main
      rw [hs2, if_neg Bool.false_ne_true]
      dsimp only
      cases hf : findSub snippetMarker t with
      | none =>
        exact ⟨pyRstrip t ++ detect_newline t ++ detect_newline t,
          detect_newline t, by simp⟩
      | some i => exact ⟨t.take i, detect_newline t ++ t.drop i, by simp⟩
    obtain ⟨a, b, hab⟩ := hsplit
    obtain ⟨x, y, hxy⟩ := containsSub_to_split
      (show containsSub snippetSentinel CUSTOM_CSS_SNIPPET = true from by decide)
    have hcont : containsSub snippetSentinel (patch_custom_css_main t) = true := by
      apply containsSub_of_split
        (show patch_custom_css_main t = (a ++ x) ++ snippetSentinel ++ (y ++ b) from ?_)
      rw [hab, hxy]
      simp
    set u := patch_custom_css_main t
    unfold patch_custom_css_main
    rw [hcont, if_pos rfl]

def c8doc : Str := (":root \x7b\n  --focus: 1;\n  \x7d\n").data
def c8selDoc : Str := ("body \x7b\n x;\n  \x7d trailing\n").data

/-- Counterexample for C8: a `:root` block whose only closing-brace line has
leading whitespace is not located at all (the `:root` close is the literal
newline-brace pair, with no leading whitespace allowed), and a selector
block's close group is a line beginning with whitespace and a brace but not
consisting solely of the brace (text may follow on the same line). -/
theorem C8_counterexample :
    rootSearch c8doc = none ∧
    replace_css_vars_in_root_block c8doc libraryTable = (c8doc, []) ∧
    containsSub (("\n  \x7d\n").data) c8doc = true ∧
    selSearch (("body").data) c8selDoc =
      some ([], (("body \x7b").data), (("\n x;\n").data), (("  \x7d ").data),
        (("trailing\n").data)) := by
  refine ⟨by decide, by decide, by decide, by decide⟩

/-- Claim C8, amended.

A `:root` block closes at the first newline immediately followed by a closing
brace at column zero (no leading whitespace is allowed, and the rest of that
line is irrelevant); a line-anchored `selector` block closes at a line start
whose leading characters are whitespace followed by a closing brace (the line
need not consist solely of the brace; the close group greedily extends over
following whitespace). -/
theorem C8_close_delimiters :
    (∀ t pre opn body rest, rootSearch t = some (pre, opn, body, rest) →
      t = pre ++ opn ++ body ++ rest ∧ nlBrace.isPrefixOf rest = true ∧
      containsSub nlBrace body = false) ∧
    (∀ sel t pre hd body cl rest,
      selSearch sel t = some (pre, hd, body, cl, rest) →
      t = pre ++ hd ++ body ++ cl ++ rest ∧ (∃ b0, body = b0 ++ ['\n']) ∧
      ∃ ws ws2, cl = ws ++ '\x7d' :: ws2 ∧ ws.all pySpace = true ∧
        ws2.all pySpace = true) := by
  constructor
  · intro t pre opn body rest h
    obtain ⟨h1, _, h3, h4⟩ := rootSearch_decomp h
    exact ⟨h1, h3, h4⟩
  · intro sel t pre hd body cl rest h
    obtain ⟨h1, _, hcl, hb, _⟩ := selSearch_decomp h
    exact ⟨h1, hb, hcl⟩

def c8root : Str := (":root \x7b\n--a: 1;\n\x7d\n").data
def c8wsel : Str := ("body \x7b\n color: red;\n\x7d\n").data

/-- Witness for C8 at concrete documents. -/
theorem C8_witness :
    (c8root = ([] : Str) ++ ((":root \x7b").data) ++ (("\n--a: 1;").data) ++
        (("\n\x7d\n").data) ∧
      nlBrace.isPrefixOf (("\n\x7d\n").data) = true ∧
      containsSub nlBrace (("\n--a: 1;").data) = false) ∧
    (c8wsel = ([] : Str) ++ (("body \x7b").data) ++ (("\n color: red;\n").data) ++
        (("\x7d\n").data) ++ ([] : Str) ∧
      (∃ b0, (("\n color: red;\n").data) = b0 ++ ['\n']) ∧
      ∃ ws ws2, (("\x7d\n").data) = ws ++ '\x7d' :: ws2 ∧ ws.all pySpace = true ∧
        ws2.all pySpace = true) :=
  ⟨C8_close_delimiters.1 c8root [] ((":root \x7b").data) (("\n--a: 1;").data)
      (("\n\x7d\n").data) (by decide),
   C8_close_delimiters.2 (("body").data) c8wsel [] (("body \x7b").data)
      (("\n color: red;\n").data) (("\x7d\n").data) [] (by decide)⟩

/-- Frame property of the upserter: a successful run either returns the input
unchanged, or splices the canonical block (possibly with one newline on either
side) in place of one contiguous span of the input; every byte outside that
span is preserved exactly.  In the replacement case the removed span starts
with whitespace and the quoted Tsukimi key. -/
lemma upsert_ok_decomp {raw out : Str} {c : Bool}
    (h : upsert_tsukimi_variation_in_theme_json raw = .ok (out, c)) :
    out = raw ∨
    ∃ A M Z x y ind, raw = A ++ M ++ Z ∧
      out = A ++ x ++ tsukimi_theme_json_block ind (detect_newline raw) ++ y ++ Z ∧
      (x = [] ∨ x = detect_newline raw) ∧
      (y = [] ∨ y = detect_newline raw) ∧
      (M = [] ∨ ∃ w rm, M = w ++ quotedTsukimi ++ rm ∧ w.all pySpace = true) := by
  unfold upsert_tsukimi_variation_in_theme_json at h
  dsimp only at h
  by_cases hv : containsSub quotedVariation raw = true
  case neg =>
    rw [if_neg hv] at h
    cases h
  case pos =>
    rw [hv, if_pos rfl] at h
    by_cases htk : containsSub quotedTsukimi raw = true
    · rw [htk, if_pos rfl] at h
      cases hk : keySearch quotedTsukimi raw with
      | none =>
        rw [hk] at h
        rw [Except.ok.injEq, Prod.mk.injEq] at h
        exact Or.inl h.1.symm
      | some tup =>
        obtain ⟨pre, ind, seg, rest⟩ := tup
        rw [hk] at h
        dsimp only at h
        cases hb : braceScan ('\x7b' :: rest) with
        | none => rw [hb] at h; cases h
        | some sp2 =>
          obtain ⟨span, after⟩ := sp2
          rw [hb] at h
          dsimp only at h
          obtain ⟨hraw, hind, ⟨ws2, ws3, hseg, _, _⟩, _⟩ := keySearch_decomp hk
          have hbr := braceScan_decomp hb
          have hafter : after = after.takeWhile hSpace ++
              after.drop (after.takeWhile hSpace).length := takeWhile_decomp hSpace after
          right
          split at h
          next r0 heq =>
            rw [Except.ok.injEq, Prod.mk.injEq] at h
            refine ⟨pre, ind ++ seg ++ span ++ after.takeWhile hSpace ++ [','], r0,
              [], [], ind, ?_, ?_, Or.inl rfl, Or.inl rfl,
              Or.inr ⟨ind, ws2 ++ ':' :: ws3 ++ span ++ after.takeWhile hSpace ++ [','],
                by rw [hseg]; simp, hind⟩⟩
            · rw [hraw]
              have : ('\x7b' :: rest) = span ++ (after.takeWhile hSpace ++ (',' :: r0)) := by
                rw [← heq, ← hafter]
                exact hbr
              rw [this]
              simp
            · rw [← h.1]
              simp
          next heq =>
            rw [Except.ok.injEq, Prod.mk.injEq] at h
            refine ⟨pre, ind ++ seg ++ span ++ after.takeWhile hSpace,
              after.drop (after.takeWhile hSpace).length,
              [], [], ind, ?_, ?_, Or.inl rfl, Or.inl rfl,
              Or.inr ⟨ind, ws2 ++ ':' :: ws3 ++ span ++ after.takeWhile hSpace,
                by rw [hseg]; simp, hind⟩⟩
            · rw [hraw]
              have : ('\x7b' :: rest) = span ++ (after.takeWhile hSpace ++
                  after.drop (after.takeWhile hSpace).length) := by
                rw [← hafter]
                exact hbr
              rw [this]
              simp
            · rw [← h.1]
              simp
    · rw [if_neg htk] at h
      cases hk : keySearch quotedMidnight raw with
      | none => rw [hk] at h; cases h
      | some tup =>
        obtain ⟨pre, ind, seg, rest⟩ := tup
        rw [hk] at h
        dsimp only at h
        cases hb : braceScan ('\x7b' :: rest) with
        | none => rw [hb] at h; cases h
        | some sp2 =>
          obtain ⟨span, after⟩ := sp2
          rw [hb] at h
          dsimp only at h
          obtain ⟨hraw, hind, ⟨ws2, ws3, hseg, _, _⟩, _⟩ := keySearch_decomp hk
          have hbr := braceScan_decomp hb
          have hafter : after = after.takeWhile hSpace ++
              after.drop (after.takeWhile hSpace).length := takeWhile_decomp hSpace after
          right
          split at h
          next r0 heq =>
            rw [heq] at h
            simp only [List.length_cons, List.length_nil, List.drop_succ_cons,
              List.drop_zero] at h
            have hSplit : ('\x7b' :: rest) = span ++
                (after.takeWhile hSpace ++ (',' :: r0)) := by
              rw [← heq, ← hafter]
              exact hbr
            cases hnlb : (detect_newline raw).isPrefixOf r0 with
            | true =>
              simp only [hnlb, reduceIte] at h
              rw [Except.ok.injEq, Prod.mk.injEq] at h
              have hr0 : r0 = detect_newline raw ++ r0.drop (detect_newline raw).length :=
                prefixOf_decomp hnlb
              refine ⟨pre ++ ind ++ seg ++ span ++ after.takeWhile hSpace ++ [','] ++
                  detect_newline raw, [], r0.drop (detect_newline raw).length,
                [], detect_newline raw, ind, ?_, ?_, Or.inl rfl, Or.inr rfl, Or.inl rfl⟩
              · conv_lhs => rw [hraw, hSplit]
                conv_lhs => rw [hr0]
                simp
              · simp [← h.1]
            | false =>
              simp only [hnlb, reduceIte] at h
              rw [Except.ok.injEq, Prod.mk.injEq] at h
              refine ⟨pre ++ ind ++ seg ++ span ++ after.takeWhile hSpace ++ [','],
                [], r0, detect_newline raw, detect_newline raw, ind,
                ?_, ?_, Or.inr rfl, Or.inr rfl, Or.inl rfl⟩
              · conv_lhs => rw [hraw, hSplit]
                simp
              · simp [← h.1]
          next heq =>
            simp only [List.length_nil, List.drop_zero] at h
            have hSplit : ('\x7b' :: rest) = span ++
                (after.takeWhile hSpace ++
                  after.drop (after.takeWhile hSpace).length) := by
              rw [← hafter]
              exact hbr
            cases hnlb : (detect_newline raw).isPrefixOf
                (after.drop (after.takeWhile hSpace).length) with
            | true =>
              simp only [hnlb, reduceIte] at h
              rw [Except.ok.injEq, Prod.mk.injEq] at h
              have hr0 : after.drop (after.takeWhile hSpace).length =
                  detect_newline raw ++
                  (after.drop (after.takeWhile hSpace).length).drop
                    (detect_newline raw).length :=
                prefixOf_decomp hnlb
              refine ⟨pre ++ ind ++ seg ++ span ++ after.takeWhile hSpace ++
                  detect_newline raw, [],
                (after.drop (after.takeWhile hSpace).length).drop
                  (detect_newline raw).length,
                [], detect_newline raw, ind, ?_, ?_, Or.inl rfl, Or.inr rfl, Or.inl rfl⟩
              · conv_lhs => rw [hraw, hSplit]
                conv_lhs => rw [hr0]
                simp
              · simp [← h.1]
            | false =>
              simp only [hnlb, reduceIte] at h
              rw [Except.ok.injEq, Prod.mk.injEq] at h
              refine ⟨pre ++ ind ++ seg ++ span ++ after.takeWhile hSpace,
                [], after.drop (after.takeWhile hSpace).length,
                detect_newline raw, detect_newline raw, ind,
                ?_, ?_, Or.inr rfl, Or.inr rfl, Or.inl rfl⟩
              · conv_lhs => rw [hraw, hSplit]
                simp
              · simp [← h.1]

instance : DecidableEq (Except Str (Str × Bool))
  | .ok a, .ok b =>
    if h : a = b then .isTrue (by rw [h]) else
      .isFalse (fun hh => by cases hh; exact h rfl)
  | .error a, .error b =>
    if h : a = b then .isTrue (by rw [h]) else
      .isFalse (fun hh => by cases hh; exact h rfl)
  | .ok _, .error _ => .isFalse (fun hh => by cases hh)
  | .error _, .ok _ => .isFalse (fun hh => by cases hh)

def c3raw : Str :=
  ("\x7b\x22patches\x22: \x7b\x22Variation\x22: \x7b\x22values\x22: \x7b\n\x22Tsukimi\x22: \x7b\x7d\n\x7d\x7d\x7d\x7d").data

def c3out : Str :=
  (("\x7b\x22patches\x22: \x7b\x22Variation\x22: \x7b\x22values\x22: \x7b\n").data) ++
  tsukimi_theme_json_block [] ['\n'] ++ (("\n\x7d\x7d\x7d\x7d").data)

/-- Counterexample for C3: a valid theme.json in which the Tsukimi object is
the last member of its enclosing object; the upsert replaces it with the
canonical block, which ends in a trailing comma, so the output no longer
parses as JSON. -/
theorem C3_counterexample :
    jsonValid c3raw = true ∧
    upsert_tsukimi_variation_in_theme_json c3raw = .ok (c3out, true) ∧
    jsonValid c3out = false := by
  refine ⟨by decide, by decide, by decide⟩

/-- Claim C3, amended.

For every theme.json text that parses as valid JSON and contains the
`"Variation"` key, a successful upsert either returns the text unchanged or
replaces one contiguous span with the canonical block (with at most one
newline added on either side); every byte outside that span — in particular
the insertion order and byte-exact formatting of every other key — is
preserved.  Output validity is not guaranteed: it fails when the replaced or
inserted object is the last member of its enclosing object, since the
canonical rendering ends with a trailing comma. -/
theorem C3_json_upsert_frame (raw out : Str) (c : Bool)
    (_hjson : jsonValid raw = true)
    (_hvar : containsSub quotedVariation raw = true)
    (h : upsert_tsukimi_variation_in_theme_json raw = .ok (out, c)) :
    out = raw ∨
    ∃ A M Z x y ind, raw = A ++ M ++ Z ∧
      out = A ++ x ++ tsukimi_theme_json_block ind (detect_newline raw) ++ y ++ Z ∧
      (x = [] ∨ x = detect_newline raw) ∧
      (y = [] ∨ y = detect_newline raw) ∧
      (M = [] ∨ ∃ w rm, M = w ++ quotedTsukimi ++ rm ∧ w.all pySpace = true) :=
  upsert_ok_decomp h

/-- Witness for C3 at the concrete document of the counterexample input. -/
theorem C3_witness :
    c3out = c3raw ∨
    ∃ A M Z x y ind, c3raw = A ++ M ++ Z ∧
      c3out = A ++ x ++ tsukimi_theme_json_block ind (detect_newline c3raw) ++ y ++ Z ∧
      (x = [] ∨ x = detect_newline c3raw) ∧
      (y = [] ∨ y = detect_newline c3raw) ∧
      (M = [] ∨ ∃ w rm, M = w ++ quotedTsukimi ++ rm ∧ w.all pySpace = true) :=
  C3_json_upsert_frame c3raw c3out true (by decide) (by decide) (by decide)

/-! Frame lemmas: each patcher only rewrites the interior of the block it
located; all other bytes are spliced back unchanged. -/

lemma replace_frame {t pre opn body rest : Str} {repl : List (Str × Str)}
    (h : rootSearch t = some (pre, opn, body, rest)) :
    t = pre ++ opn ++ body ++ rest ∧
    replace_css_vars_in_root_block t repl =
      (pre ++ opn ++ (replaceVarsBody repl body).1 ++ rest,
       (replaceVarsBody repl body).2) := by
  refine ⟨(rootSearch_decomp h).1, ?_⟩
  unfold replace_css_vars_in_root_block
  rw [h]

lemma comment_frame {t var comment pre opn body rest : Str}
    (h : rootSearch t = some (pre, opn, body, rest)) :
    (ensure_comment_before_var_in_root_block t var comment).1 = t ∨
    ∃ body2, (ensure_comment_before_var_in_root_block t var comment).1 =
      pre ++ opn ++ body2 ++ rest := by
  unfold ensure_comment_before_var_in_root_block
  rw [h]
  dsimp only
  repeat' split
  all_goals
    first
    | (left; rfl)
    | (right; exact ⟨_, rfl⟩)

lemma webkit_frame {t pre hd body cl rest : Str}
    (h : selSearch (("body").data) t = some (pre, hd, body, cl, rest)) :
    (ensure_webkit_body_bg_uses_clientbg t).1 = t ∨
    ∃ body2, (ensure_webkit_body_bg_uses_clientbg t).1 =
      pre ++ hd ++ body2 ++ cl ++ rest := by
  unfold ensure_webkit_body_bg_uses_clientbg
  rw [h]
  dsimp only
  repeat' split
  all_goals
    first
    | (left; rfl)
    | (right; exact ⟨_, rfl⟩)

lemma selprops_frame {t sel pre hd body cl rest : Str} {props : List (Str × Str)}
    (h : selSearch sel t = some (pre, hd, body, cl, rest)) :
    (ensure_selector_properties t sel props).1 = t ∨
    ∃ body2, (ensure_selector_properties t sel props).1 =
      pre ++ hd ++ body2 ++ cl ++ rest := by
  unfold ensure_selector_properties
  rw [h]
  dsimp only
  repeat' split
  all_goals
    first
    | (left; rfl)
    | (right; exact ⟨_, rfl⟩)

lemma snippet_frame (t : Str) :
    patch_custom_css_main t = t ∨
    (∃ i, findSub snippetMarker t = some i ∧
      patch_custom_css_main t =
        t.take i ++ CUSTOM_CSS_SNIPPET ++ detect_newline t ++ t.drop i) ∨
    (findSub snippetMarker t = none ∧
      patch_custom_css_main t =
        pyRstrip t ++ detect_newline t ++ detect_newline t ++
          CUSTOM_CSS_SNIPPET ++ detect_newline t ∧
      ∃ w, t = pyRstrip t ++ w ∧ w.all pySpace = true) := by
  unfold patch_custom_css_main
  by_cases hs : containsSub snippetSentinel t = true
  · rw [hs, if_pos rfl]
    exact Or.inl rfl
  · rw [if_neg hs]
    dsimp only
    cases hf : findSub snippetMarker t with
    | none => exact Or.inr (Or.inr ⟨rfl, rfl, pyRstrip_decomp t⟩)
    | some i => exact Or.inr (Or.inl ⟨i, rfl, rfl⟩)

def c2doc : Str := (":root \x7b\n  --focus: 1;\n  --x: 2;\n\x7d\r\n").data

/-- Is `out` equal to `t` with one contiguous insertion at position `k`? -/
def insertionAtB (t out : Str) (k : Nat) : Bool :=
  out == t.take k ++ ((out.drop k).take (out.length - t.length)) ++ t.drop k

def noInsertionUpTo (t out : Str) : Nat → Bool
  | 0 => !(insertionAtB t out 0)
  | k + 1 => !(insertionAtB t out (k + 1)) && noInsertionUpTo t out k

lemma insertionAtB_of {t out : Str} {k : Nat} (hk : k ≤ t.length) (mid : Str)
    (h : out = t.take k ++ mid ++ t.drop k) : insertionAtB t out k = true := by
  subst h
  unfold insertionAtB
  rw [beq_iff_eq]
  have hlen : (t.take k).length = k := by
    rw [List.length_take]
    omega
  have hdrop : (t.take k ++ mid ++ t.drop k).drop k = mid ++ t.drop k := by
    rw [List.append_assoc]
    exact List.drop_left' hlen
  have hlen2 : (t.take k ++ mid ++ t.drop k).length - t.length = mid.length := by
    simp only [List.length_append, List.length_take, List.length_drop]
    omega
  rw [hdrop, hlen2, List.take_left ..]

lemma noInsertionUpTo_spec {t out : Str} {n k : Nat}
    (h : noInsertionUpTo t out n = true) (hk : k ≤ n) :
    insertionAtB t out k = false := by
  induction n with
  | zero =>
    unfold noInsertionUpTo at h
    have hz : k = 0 := by omega
    subst hz
    simpa using h
  | succ n0 ih =>
    unfold noInsertionUpTo at h
    rw [Bool.and_eq_true] at h
    by_cases hkn : k = n0 + 1
    · subst hkn
      simpa using h.1
    · exact ih h.2 (by omega)

/-- Counterexample for C2: on a document whose `:root` body uses bare newlines
while the document's detected newline is CRLF, the comment inserter rejoins
every body line with CRLF, so the output is not the input with one contiguous
insertion — bytes outside the inserted comment line are changed. -/
theorem C2_counterexample :
    (ensure_comment_before_var_in_root_block c2doc (("focus").data)
      TSUKIMI_COMMENT).2 = true ∧
    ¬ ∃ k, k ≤ c2doc.length ∧ ∃ mid : Str,
      (ensure_comment_before_var_in_root_block c2doc (("focus").data)
        TSUKIMI_COMMENT).1 = c2doc.take k ++ mid ++ c2doc.drop k := by
  have hno : noInsertionUpTo c2doc
      (ensure_comment_before_var_in_root_block c2doc (("focus").data)
        TSUKIMI_COMMENT).1 c2doc.length = true := by decide
  refine ⟨by decide, ?_⟩
  rintro ⟨k, hk, mid, hmid⟩
  have h1 := insertionAtB_of hk mid hmid
  have h2 := noInsertionUpTo_spec hno hk
  rw [h1] at h2
  cases h2

/-- Claim C2, amended.

Every patcher splices its edit back between the unchanged prefix and suffix of
the located block: the variable rewriter and comment inserter keep every byte
outside the located `:root` body span; the body-background and
selector-property patchers keep every byte outside the selector block's body
span; the JSON upserter keeps every byte outside the replaced/inserted span;
the snippet patch inserts at the marker position or appends after the
trailing whitespace it trims.  Inside the `:root` body, however, the comment
inserter may rewrite line separators with the document's detected newline
(see the counterexample), so its byte-preservation guarantee stops at the
body span, not at the single inserted line. -/
theorem C2_scope_isolation :
    (∀ t repl pre opn body rest, rootSearch t = some (pre, opn, body, rest) →
      t = pre ++ opn ++ body ++ rest ∧
      replace_css_vars_in_root_block t repl =
        (pre ++ opn ++ (replaceVarsBody repl body).1 ++ rest,
         (replaceVarsBody repl body).2)) ∧
    (∀ t var comment pre opn body rest,
      rootSearch t = some (pre, opn, body, rest) →
      (ensure_comment_before_var_in_root_block t var comment).1 = t ∨
      ∃ body2, (ensure_comment_before_var_in_root_block t var comment).1 =
        pre ++ opn ++ body2 ++ rest) ∧
    (∀ t pre hd body cl rest,
      selSearch (("body").data) t = some (pre, hd, body, cl, rest) →
      (ensure_webkit_body_bg_uses_clientbg t).1 = t ∨
      ∃ body2, (ensure_webkit_body_bg_uses_clientbg t).1 =
        pre ++ hd ++ body2 ++ cl ++ rest) ∧
    (∀ t sel props pre hd body cl rest,
      selSearch sel t = some (pre, hd, body, cl, rest) →
      (ensure_selector_properties t sel props).1 = t ∨
      ∃ body2, (ensure_selector_properties t sel props).1 =
        pre ++ hd ++ body2 ++ cl ++ rest) ∧
    (∀ raw out c, upsert_tsukimi_variation_in_theme_json raw = .ok (out, c) →
      out = raw ∨
      ∃ A M Z x y ind, raw = A ++ M ++ Z ∧
        out = A ++ x ++ tsukimi_theme_json_block ind (detect_newline raw) ++
          y ++ Z ∧
        (x = [] ∨ x = detect_newline raw) ∧ (y = [] ∨ y = detect_newline raw) ∧
        (M = [] ∨ ∃ w rm, M = w ++ quotedTsukimi ++ rm ∧ w.all pySpace = true)) ∧
    (∀ t, patch_custom_css_main t = t ∨
      (∃ i, findSub snippetMarker t = some i ∧
        patch_custom_css_main t =
          t.take i ++ CUSTOM_CSS_SNIPPET ++ detect_newline t ++ t.drop i) ∨
      (findSub snippetMarker t = none ∧
        patch_custom_css_main t =
          pyRstrip t ++ detect_newline t ++ detect_newline t ++
            CUSTOM_CSS_SNIPPET ++ detect_newline t ∧
        ∃ w, t = pyRstrip t ++ w ∧ w.all pySpace = true)) := by
  refine ⟨?_, ?_, ?_, ?_, ?_, ?_⟩
  · intro t repl pre opn body rest h
    exact replace_frame h
  · intro t var comment pre opn body rest h
    exact comment_frame h
  · intro t pre hd body cl rest h
    exact webkit_frame h
  · intro t sel props pre hd body cl rest h
    exact selprops_frame h
  · intro raw out c h
    exact upsert_ok_decomp h
  · intro t
    exact snippet_frame t

/-- Witness for C2, instantiating every conjunct at a concrete document. -/
theorem C2_witness :
    (c8root = [] ++ ((":root \x7b").data) ++ (("\n--a: 1;").data) ++
        (("\n\x7d\n").data) ∧
      replace_css_vars_in_root_block c8root libraryTable =
        ([] ++ ((":root \x7b").data) ++
         (replaceVarsBody libraryTable (("\n--a: 1;").data)).1 ++
         (("\n\x7d\n").data),
         (replaceVarsBody libraryTable (("\n--a: 1;").data)).2)) ∧
    ((ensure_comment_before_var_in_root_block c8root (("focus").data)
        TSUKIMI_COMMENT).1 = c8root ∨
      ∃ body2, (ensure_comment_before_var_in_root_block c8root (("focus").data)
        TSUKIMI_COMMENT).1 =
        [] ++ ((":root \x7b").data) ++ body2 ++ (("\n\x7d\n").data)) ∧
    ((ensure_webkit_body_bg_uses_clientbg c8wsel).1 = c8wsel ∨
      ∃ body2, (ensure_webkit_body_bg_uses_clientbg c8wsel).1 =
        [] ++ (("body \x7b").data) ++ body2 ++ (("\x7d\n").data) ++ []) ∧
    ((ensure_selector_properties c10doc ((".friendlist").data) friendsProps1).1 =
        c10doc ∨
      ∃ body2, (ensure_selector_properties c10doc ((".friendlist").data)
        friendsProps1).1 =
        [] ++ ((".friendlist \x7b").data) ++ body2 ++ (("\x7d\n").data) ++ []) ∧
    (c9raw = c9raw ∨
      ∃ A M Z x y ind, c9raw = A ++ M ++ Z ∧
        c9raw = A ++ x ++ tsukimi_theme_json_block ind (detect_newline c9raw) ++
          y ++ Z ∧
        (x = [] ∨ x = detect_newline c9raw) ∧
        (y = [] ∨ y = detect_newline c9raw) ∧
        (M = [] ∨ ∃ w rm, M = w ++ quotedTsukimi ++ rm ∧ w.all pySpace = true)) ∧
    (patch_custom_css_main c7plain = c7plain ∨
      (∃ i, findSub snippetMarker c7plain = some i ∧
        patch_custom_css_main c7plain =
          c7plain.take i ++ CUSTOM_CSS_SNIPPET ++ detect_newline c7plain ++
            c7plain.drop i) ∨
      (findSub snippetMarker c7plain = none ∧
        patch_custom_css_main c7plain =
          pyRstrip c7plain ++ detect_newline c7plain ++ detect_newline c7plain ++
            CUSTOM_CSS_SNIPPET ++ detect_newline c7plain ∧
        ∃ w, c7plain = pyRstrip c7plain ++ w ∧ w.all pySpace = true)) :=
  ⟨C2_scope_isolation.1 c8root libraryTable [] ((":root \x7b").data)
      (("\n--a: 1;").data) (("\n\x7d\n").data) (by decide),
   C2_scope_isolation.2.1 c8root (("focus").data) TSUKIMI_COMMENT []
      ((":root \x7b").data) (("\n--a: 1;").data) (("\n\x7d\n").data) (by decide),
   C2_scope_isolation.2.2.1 c8wsel [] (("body \x7b").data)
      (("\n color: red;\n").data) (("\x7d\n").data) [] (by decide),
   C2_scope_isolation.2.2.2.1 c10doc ((".friendlist").data) friendsProps1 []
      ((".friendlist \x7b").data) c10body (("\x7d\n").data) [] (by decide),
   C2_scope_isolation.2.2.2.2.1 c9raw c9raw false (by decide),
   C2_scope_isolation.2.2.2.2.2 c7plain⟩

/-! Ordered occurrence of the 24 canonical entry keys in the rendered block. -/

def occursInOrder : List Str → Str → Prop
  | [], _ => True
  | p :: ps, s => ∃ a b, s = a ++ p ++ b ∧ occursInOrder ps b

def entryKeys : List Str := tsukimiEntries.map Prod.fst

lemma occursInOrder_mono (w : Str) {ps : List Str} {s : Str}
    (h : occursInOrder ps s) : occursInOrder ps (w ++ s) := by
  cases ps with
  | nil => trivial
  | cons p ps0 =>
    obtain ⟨a, b, hs, hr⟩ := h
    exact ⟨w ++ a, b, by rw [hs]; simp, hr⟩

lemma intercalate_cons_ne_nil (sep a : Str) {l : List Str} (hl : l ≠ []) :
    List.intercalate sep (a :: l) = a ++ sep ++ List.intercalate sep l := by
  cases l with
  | nil => exact absurd rfl hl
  | cons b t => simp [List.intercalate, List.intersperse]

lemma occursInOrder_entryLines (ind nl close : Str) :
    ∀ entries : List (Str × Str),
    occursInOrder (entries.map Prod.fst)
      (List.intercalate nl ((entries.map (fun kv =>
        ind ++ (("    ").data) ++ kv.1 ++ ((": ").data) ++ kv.2)) ++ [close])) := by
  intro entries
  induction entries with
  | nil => trivial
  | cons kv es ih =>
    rw [List.map_cons, List.map_cons, List.cons_append,
      intercalate_cons_ne_nil _ _ (by simp)]
    refine ⟨ind ++ (("    ").data),
      ((": ").data) ++ kv.2 ++ nl ++ List.intercalate nl ((es.map (fun kv =>
        ind ++ (("    ").data) ++ kv.1 ++ ((": ").data) ++ kv.2)) ++ [close]),
      by simp, ?_⟩
    have := occursInOrder_mono (((": ").data) ++ kv.2 ++ nl) ih
    simpa [List.append_assoc] using this

lemma occursInOrder_block (ind nl : Str) :
    occursInOrder entryKeys (tsukimi_theme_json_block ind nl) := by
  unfold tsukimi_theme_json_block
  rw [show ([ind ++ (("\x22Tsukimi\x22: \x7b").data)] ++
      (tsukimiEntries.map (fun kv =>
        ind ++ (("    ").data) ++ kv.1 ++ ((": ").data) ++ kv.2)) ++
      [ind ++ (("\x7d,").data)]) =
    ((ind ++ (("\x22Tsukimi\x22: \x7b").data)) ::
      ((tsukimiEntries.map (fun kv =>
        ind ++ (("    ").data) ++ kv.1 ++ ((": ").data) ++ kv.2)) ++
      [ind ++ (("\x7d,").data)])) from by simp]
  rw [intercalate_cons_ne_nil _ _ (by simp)]
  rw [List.append_assoc]
  apply occursInOrder_mono
  apply occursInOrder_mono
  exact occursInOrder_entryLines ind nl (ind ++ (("\x7d,").data)) tsukimiEntries

/-- Extract the text of a successful patch result. -/
def okText : Except Str (Str × Bool) → Str
  | .ok p => p.1
  | .error _ => []

def c4raw : Str :=
  ("\x7b\x22patches\x22: \x7b\x22Variation\x22: \x7b\x22values\x22: \x7b\n\x22Midnight\x22: \x7b\x7d\n\x7d\x7d\x7d\x7d").data

def c4out : Str :=
  (("\x7b\x22patches\x22: \x7b\x22Variation\x22: \x7b\x22values\x22: \x7b\n\x22Midnight\x22: \x7b\x7d\n").data) ++
  tsukimi_theme_json_block [] ['\n'] ++ (("\n\x7d\x7d\x7d\x7d").data)

/-- Counterexample for C4: when no comma follows Midnight's closing brace, the
upsert does NOT add one — the output continues directly with a newline and the
inserted Tsukimi block, and the document is no longer valid JSON. -/
theorem C4_counterexample :
    jsonValid c4raw = true ∧
    upsert_tsukimi_variation_in_theme_json c4raw = .ok (c4out, true) ∧
    containsSub [','] (c4out.take 60) = false ∧
    containsSub (("\x22Midnight\x22: \x7b\x7d\n\x22Tsukimi\x22").data) c4out = true ∧
    jsonValid c4out = false := by
  refine ⟨by decide, by rfl, by decide, by decide, by decide⟩

lemma detect_newline_ne_nil (t : Str) : detect_newline t ≠ [] := by
  unfold detect_newline
  split <;> simp

/-- Claim C4, amended.

On a theme.json containing a located `"Midnight"` key (and the `"Variation"`
substring) but no `"Tsukimi"` substring, the upsert inserts the canonical
rendering — whose 24 entries appear in the fixed literal order — immediately
after Midnight's balanced closing brace, any following horizontal whitespace,
any already-present comma, and (when present) one newline; no comma is added
when none follows (the rendered block itself ends with a trailing comma).
Everything up to and including Midnight's closing brace, and the suffix after
the insertion point, are byte-identical to the input; the block uses the
document's detected newline and Midnight's own indentation. -/
theorem C4_insert_after_midnight (raw pre ind seg rest span after : Str)
    (hv : containsSub quotedVariation raw = true)
    (ht : containsSub quotedTsukimi raw = false)
    (hk : keySearch quotedMidnight raw = some (pre, ind, seg, rest))
    (hb : braceScan ('\x7b' :: rest) = some (span, after)) :
    ∃ sp comma cnl pfx r3,
      upsert_tsukimi_variation_in_theme_json raw =
        .ok (pre ++ ind ++ seg ++ span ++ sp ++ comma ++ cnl ++ pfx ++
          tsukimi_theme_json_block ind (detect_newline raw) ++
          detect_newline raw ++ r3, true) ∧
      raw = pre ++ ind ++ seg ++ span ++ sp ++ comma ++ cnl ++ r3 ∧
      sp.all hSpace = true ∧
      (comma = [] ∨ comma = [',']) ∧
      (cnl = [] ∨ cnl = detect_newline raw) ∧
      (pfx = [] ∨ pfx = detect_newline raw) ∧
      (cnl = [] ↔ pfx = detect_newline raw) ∧
      occursInOrder entryKeys (tsukimi_theme_json_block ind (detect_newline raw)) ∧
      entryKeys.length = 24 := by
  have ht2 : ¬ containsSub quotedTsukimi raw = true := by
    rw [ht]
    exact Bool.false_ne_true
  obtain ⟨hraw, hind, ⟨ws2, ws3, hseg, _, _⟩, _⟩ := keySearch_decomp hk
  have hbr := braceScan_decomp hb
  have hafter : after = after.takeWhile hSpace ++
      after.drop (after.takeWhile hSpace).length := takeWhile_decomp hSpace after
  have hred : upsert_tsukimi_variation_in_theme_json raw =
      (let sp := after.takeWhile hSpace
       let r1 := after.drop sp.length
       let comma : Str := match r1 with
                          | ',' :: _ => [',']
                          | _ => []
       let r2 := r1.drop comma.length
       let consumedNl : Str := if (detect_newline raw).isPrefixOf r2 then
                                 detect_newline raw else []
       let r3 := r2.drop consumedNl.length
       let pfx : Str := if (detect_newline raw).isPrefixOf r2 then []
                        else detect_newline raw
       .ok (pre ++ ind ++ seg ++ span ++ sp ++ comma ++ consumedNl ++
         pfx ++ tsukimi_theme_json_block ind (detect_newline raw) ++
         detect_newline raw ++ r3, true)) := by
    unfold upsert_tsukimi_variation_in_theme_json
    dsimp only
    rw [hv, if_pos rfl, if_neg ht2, hk]
    dsimp only
    rw [hb]
  rw [hred]
  dsimp only
  split
  next r0 heq =>
    have hSplit : ('\x7b' :: rest) = span ++
        (after.takeWhile hSpace ++ (',' :: r0)) := by
      rw [← heq, ← hafter]
      exact hbr
    rw [heq]
    simp only [List.length_cons, List.length_nil, List.drop_succ_cons,
      List.drop_zero]
    by_cases hnlb : (detect_newline raw).isPrefixOf r0 = true
    · simp only [hnlb, reduceIte]
      refine ⟨after.takeWhile hSpace, [','], detect_newline raw, [],
        r0.drop (detect_newline raw).length, by simp, ?_,
        all_takeWhile _ _, Or.inr rfl, Or.inr rfl, Or.inl rfl, ?_,
        occursInOrder_block _ _, by decide⟩
      · conv_lhs => rw [hraw, hSplit]
        conv_lhs => rw [prefixOf_decomp hnlb]
        simp
      · constructor
        · intro hc
          exact absurd hc (detect_newline_ne_nil raw)
        · intro hc
          exact absurd hc.symm (detect_newline_ne_nil raw)
    · have hnlb2 : (detect_newline raw).isPrefixOf r0 = false := by
        rwa [Bool.not_eq_true] at hnlb
      simp only [hnlb2, reduceIte]
      refine ⟨after.takeWhile hSpace, [','], [], detect_newline raw,
        r0, by simp, ?_, all_takeWhile _ _, Or.inr rfl, Or.inl rfl,
        Or.inr rfl, by simp, occursInOrder_block _ _, by decide⟩
      conv_lhs => rw [hraw, hSplit]
      simp
  next heq =>
    have hSplit : ('\x7b' :: rest) = span ++
        (after.takeWhile hSpace ++ after.drop (after.takeWhile hSpace).length) := by
      rw [← hafter]
      exact hbr
    simp only [List.length_nil, List.drop_zero]
    by_cases hnlb : (detect_newline raw).isPrefixOf
        (after.drop (after.takeWhile hSpace).length) = true
    · simp only [hnlb, reduceIte]
      refine ⟨after.takeWhile hSpace, [], detect_newline raw, [],
        (after.drop (after.takeWhile hSpace).length).drop
          (detect_newline raw).length, by simp, ?_,
        all_takeWhile _ _, Or.inl rfl, Or.inr rfl, Or.inl rfl, ?_,
        occursInOrder_block _ _, by decide⟩
      · conv_lhs => rw [hraw, hSplit]
        conv_lhs => rw [prefixOf_decomp hnlb]
        simp
      · constructor
        · intro hc
          exact absurd hc (detect_newline_ne_nil raw)
        · intro hc
          exact absurd hc.symm (detect_newline_ne_nil raw)
    · have hnlb2 : (detect_newline raw).isPrefixOf
          (after.drop (after.takeWhile hSpace).length) = false := by
        rwa [Bool.not_eq_true] at hnlb
      simp only [hnlb2, reduceIte]
      refine ⟨after.takeWhile hSpace, [], [], detect_newline raw,
        after.drop (after.takeWhile hSpace).length, by simp, ?_,
        all_takeWhile _ _, Or.inl rfl, Or.inl rfl, Or.inr rfl, by simp,
        occursInOrder_block _ _, by decide⟩
      conv_lhs => rw [hraw, hSplit]
      simp

def c4wPre : Str := ("\x7b\x22patches\x22: \x7b\x22Variation\x22: \x7b\x22values\x22: \x7b\n").data

def c4wSeg : Str := ("\x22Midnight\x22: ").data

def c4wRest : Str := ("\x7d\n\x7d\x7d\x7d\x7d").data

def c4wSpan : Str := ("\x7b\x7d").data

def c4wAfter : Str := ("\n\x7d\x7d\x7d\x7d").data

/-- Witness for C4 at the concrete document c4raw: all hypotheses hold and the
insertion decomposition is produced. -/
theorem C4_witness :
    ∃ sp comma cnl pfx r3,
      upsert_tsukimi_variation_in_theme_json c4raw =
        .ok (c4wPre ++ ([] : Str) ++ c4wSeg ++ c4wSpan ++ sp ++ comma ++ cnl ++ pfx ++
          tsukimi_theme_json_block [] (detect_newline c4raw) ++
          detect_newline c4raw ++ r3, true) ∧
      c4raw = c4wPre ++ ([] : Str) ++ c4wSeg ++ c4wSpan ++ sp ++ comma ++ cnl ++ r3 ∧
      sp.all hSpace = true ∧
      (comma = [] ∨ comma = [',']) ∧
      (cnl = [] ∨ cnl = detect_newline c4raw) ∧
      (pfx = [] ∨ pfx = detect_newline c4raw) ∧
      (cnl = [] ↔ pfx = detect_newline c4raw) ∧
      occursInOrder entryKeys (tsukimi_theme_json_block [] (detect_newline c4raw)) ∧
      entryKeys.length = 24 :=
  C4_insert_after_midnight c4raw c4wPre [] c4wSeg c4wRest c4wSpan c4wAfter
    (by decide) (by decide) (by decide) (by decide)

lemma takeWhile_append_stop {p : Char → Bool} {ws : Str} (c : Char) (t : Str)
    (hws : ws.all p = true) (hc : p c = false) :
    (ws ++ c :: t).takeWhile p = ws := by
  induction ws with
  | nil => simp [List.takeWhile_cons, hc]
  | cons a l ih =>
    simp only [List.all_cons, Bool.and_eq_true] at hws
    simp [List.takeWhile_cons, hws.1, ih hws.2]

lemma mem_of_append_concat {x s A0 : Str} {ch : Char}
    (hs : s ≠ []) (h : x ++ s = A0 ++ [ch]) : ch ∈ s := by
  rcases s.eq_nil_or_concat with rfl | ⟨s0, c, rfl⟩
  · exact absurd rfl hs
  · rw [List.concat_eq_append, ← List.append_assoc] at h
    have h2 := (List.append_inj' h (by simp)).2
    have hc : c = ch := by simpa using h2
    rw [List.concat_eq_append, hc]
    simp

lemma matchVarAt_extended_contra (ws r0 B g1 g2 rest : Str) (d : Char)
    (hws : ws.all hSpace = true) (hd : pySpace d = false) (hdc : d ≠ ':')
    (h : matchVarAt (("white").data)
      ((ws ++ ('-' :: '-' :: (("white").data)) ++ d :: r0) ++ B) =
      some (g1, g2, rest)) : False := by
  have hS : ((ws ++ ('-' :: '-' :: (("white").data)) ++ d :: r0) ++ B) =
      ws ++ '-' :: '-' :: ((("white").data) ++ d :: (r0 ++ B)) := by simp
  rw [hS] at h
  unfold matchVarAt at h
  dsimp only at h
  rw [takeWhile_append_stop '-' _ hws (by decide)] at h
  rw [List.drop_left] at h
  have hpre : (('-' :: '-' :: (("white").data))).isPrefixOf
      ('-' :: '-' :: ((("white").data) ++ d :: (r0 ++ B))) = true := by
    rw [List.isPrefixOf_iff_prefix]
    exact ⟨d :: (r0 ++ B), by simp⟩
  rw [hpre, if_pos rfl] at h
  have hdrop : ('-' :: '-' :: ((("white").data) ++ d :: (r0 ++ B))).drop
      ((("white").data).length + 2) = d :: (r0 ++ B) := by
    rw [show ('-' :: '-' :: ((("white").data) ++ d :: (r0 ++ B))) =
        ('-' :: '-' :: (("white").data)) ++ d :: (r0 ++ B) from by simp]
    exact List.drop_left' (by rw [List.length_cons, List.length_cons])
  rw [hdrop] at h
  have hws1 : (d :: (r0 ++ B)).takeWhile pySpace = [] := by
    simp [List.takeWhile_cons, hd]
  rw [hws1] at h
  simp only [List.length_nil, List.drop_zero] at h
  split at h
  next t3 heq =>
    have : d = ':' := by
      have := List.head_eq_of_cons_eq heq
      simpa using this
    exact hdc this
  next => cases h

/-- Claim C6: the per-variable pattern anchors on a `:` or whitespace boundary
right after the full name, so rewriting `--white` never touches a line that
defines an extended name such as `--white05`.  The document body splits as
`A ++ L ++ B` where `L` is the newline-free line defining the extended name
(`ws ++ "--white" ++ d :: r0` with a non-space, non-colon character `d` after
the name) sitting at a line boundary; given the leftmost line-start match of
the `--white` pattern (with a single-line matched span), the substitution
keeps the matched group-1 anchored to a `:`-or-whitespace boundary after the
full name `--white`, and the rewritten body still contains `L` intact: the
edit lands entirely before `L` or entirely after it. -/
theorem C6_white_boundary (body A L B pre g1 g2 rest ws r0 val : Str) (d : Char)
    (hbody : body = A ++ L ++ B)
    (hA : A = [] ∨ ∃ A0, A = A0 ++ ['\n'])
    (hL : L = ws ++ ('-' :: '-' :: (("white").data)) ++ d :: r0)
    (hws : ws.all hSpace = true)
    (hd : pySpace d = false) (hdc : d ≠ ':')
    (hLnl : '\n' ∉ L)
    (hscan : scanLS (matchVarAt (("white").data)) [] true body =
      some (pre, g1, g2, rest))
    (hg1 : '\n' ∉ g1) (hg2 : '\n' ∉ g2) :
    subnVar (("white").data) val body = (pre ++ g1 ++ val ++ ';' :: rest, true) ∧
    (∃ ind ws1 ws2,
      g1 = ind ++ '-' :: '-' :: (("white").data) ++ ws1 ++ ':' :: ws2 ∧
      ind.all hSpace = true ∧ ws1.all pySpace = true ∧ ws2.all pySpace = true) ∧
    ((∃ B2, pre ++ g1 ++ val ++ ';' :: rest = A ++ L ++ B2) ∨
     (∃ A2, pre ++ g1 ++ val ++ ';' :: rest = A2 ++ L ++ B)) := by
  have hsubn : subnVar (("white").data) val body =
      (pre ++ g1 ++ val ++ ';' :: rest, true) := by
    unfold subnVar
    rw [hscan]
  obtain ⟨u, v, hbv, hpre_u, hmv, hls0⟩ := scanLS_eq_some hscan
  have hpreu : pre = u := by simpa using hpre_u
  rw [← hpreu] at hbv hls0
  obtain ⟨hv, hg1shape, _⟩ := matchVarAt_some hmv
  have hls : pre = [] ∨ ∃ u0, pre = u0 ++ ['\n'] := by
    rcases hls0 with ⟨h1, _⟩ | ⟨u0, h1⟩
    · exact Or.inl h1
    · exact Or.inr ⟨u0, h1⟩
  have hkill : v ≠ L ++ B := by
    intro heq
    rw [heq, hL] at hmv
    exact matchVarAt_extended_contra ws r0 B g1 g2 rest d hws hd hdc hmv
  refine ⟨hsubn, hg1shape, ?_⟩
  have hE : pre ++ ((g1 ++ g2 ++ [';']) ++ rest) = (A ++ L) ++ B := by
    calc pre ++ ((g1 ++ g2 ++ [';']) ++ rest) = pre ++ v := by rw [hv]; simp
      _ = body := hbv.symm
      _ = (A ++ L) ++ B := by simp [hbody]
  rcases List.append_eq_append_iff.mp hE with ⟨t, hALt, hmB⟩ | ⟨t, hpret, _⟩
  · rcases List.append_eq_append_iff.mp hALt with ⟨s, hpres, hLs⟩ | ⟨s, hAs, hts⟩
    · by_cases hs : s = []
      · rw [hs] at hpres hLs
        simp only [List.append_nil, List.nil_append] at hpres hLs
        exact absurd (by rw [hv, hLs,
            show g1 ++ g2 ++ ';' :: rest = (g1 ++ g2 ++ [';']) ++ rest from
              by simp, hmB]) hkill
      · rcases hls with h0 | ⟨u0, h0⟩
        · rw [h0] at hpres
          exact absurd hpres.symm (by simp [hs])
        · rw [h0] at hpres
          have hin : '\n' ∈ s := mem_of_append_concat hs hpres.symm
          exact absurd (by rw [hLs]; exact List.mem_append_left t hin) hLnl
    · rw [hts] at hmB
      have hmB2 : (g1 ++ g2 ++ [';']) ++ rest = s ++ (L ++ B) := by
        rw [hmB]; simp
      rcases List.append_eq_append_iff.mp hmB2 with ⟨w, hsw, hrw⟩ | ⟨w, hmw, hLBw⟩
      · right
        refine ⟨pre ++ g1 ++ val ++ ';' :: w, ?_⟩
        rw [hrw]
        simp
      · by_cases hs : s = []
        · rw [hs] at hmw
          simp only [List.nil_append] at hmw
          exact absurd (by rw [hv,
              show g1 ++ g2 ++ ';' :: rest = (g1 ++ g2 ++ [';']) ++ rest from
                by simp, hLBw, hmw]) hkill
        · rcases hA with h0 | ⟨A0, h0⟩
          · rw [h0] at hAs
            exact absurd hAs.symm (by simp [hs])
          · rw [h0] at hAs
            have hin : '\n' ∈ s := mem_of_append_concat hs hAs.symm
            have hinm : '\n' ∈ (g1 ++ g2 ++ [';']) := by
              rw [hmw]
              exact List.mem_append_left w hin
            rcases List.mem_append.mp hinm with h1 | h1
            · rcases List.mem_append.mp h1 with h2 | h2
              · exact absurd h2 hg1
              · exact absurd h2 hg2
            · simp at h1
  · left
    refine ⟨t ++ g1 ++ val ++ ';' :: rest, ?_⟩
    rw [hpret]
    simp

def c6body : Str := ("  --white05: 1,2,3;\n  --white: 9,9,9;").data

def c6L : Str := ("  --white05: 1,2,3;").data

def c6B : Str := ("\n  --white: 9,9,9;").data

def c6pre : Str := ("  --white05: 1,2,3;\n").data

def c6g1 : Str := ("  --white: ").data

def c6g2 : Str := ("9,9,9").data

/-- Witness for C6 at a concrete body defining both `--white05` and `--white`:
the leftmost match skips the `--white05` line and the substitution leaves it
intact. -/
theorem C6_witness :
    subnVar (("white").data) (("0,0,0").data) c6body =
      (c6pre ++ c6g1 ++ (("0,0,0").data) ++ ';' :: [], true) ∧
    (∃ ind ws1 ws2,
      c6g1 = ind ++ '-' :: '-' :: (("white").data) ++ ws1 ++ ':' :: ws2 ∧
      ind.all hSpace = true ∧ ws1.all pySpace = true ∧ ws2.all pySpace = true) ∧
    ((∃ B2, c6pre ++ c6g1 ++ (("0,0,0").data) ++ ';' :: [] = [] ++ c6L ++ B2) ∨
     (∃ A2, c6pre ++ c6g1 ++ (("0,0,0").data) ++ ';' :: [] = A2 ++ c6L ++ c6B)) :=
  C6_white_boundary c6body [] c6L c6B c6pre c6g1 c6g2 [] (("  ").data)
    (("5: 1,2,3;").data) (("0,0,0").data) '0'
    (by decide) (Or.inl rfl) (by decide) (by decide) (by decide) (by decide)
    (by decide) (by decide) (by decide) (by decide)

end Tsukimi
